import Mathlib

/-!
A shallow embedding of the single-instrument limit order book engine
(source files: src/linked_list.rs, src/order.rs, src/price_tree.rs,
src/book.rs), together with theorems checking the natural-language
specification of the engine against this embedding.

Modelling conventions:
- u32 prices and quantities are embedded as Nat (no addition in the engine
  approaches 2^32 in any statement below; Rust's checked subtractions are
  mirrored by Nat subtraction only where the source guarantees no
  underflow, and is noted where the source could underflow in corrupt
  states).
- Uuid is embedded as Nat.  Uuid::new_v4() mints a globally fresh
  identifier; freshness is modelled by a monotone counter next_id carried
  by the order book, which stands outside the Rust struct.
- The slab crate (an arena: a vector of slots, vacant slots recycled) is
  modelled abstractly as a list of optional values; insert fills the first
  vacant slot or appends.  Which vacant slot gets recycled first is not
  observable through any operation of the engine, so this choice is sound.
- Rust mutation is modelled by state passing: a method that mutates self
  and returns r becomes a function returning (r x NewState).
- A Rust panic (unwrap / index out of bounds / explicit panic) in the
  book-level operations is modelled by an Option layer: none = the process
  aborts.  Inside the low-level containers, panics that are unreachable
  from well-formed states are totalised (returning the state unchanged)
  and marked with a comment at the spot.
-/

/-! ## Slab arena (model of the slab crate) -/

structure Slab (T : Type) where
  entries : List (Option T)
deriving DecidableEq, Repr

namespace Slab

def new {T : Type} : Slab T := ⟨[]⟩

def get (s : Slab T) (key : Nat) : Option T :=
  s.entries[key]?.join

def isVacant (s : Slab T) (key : Nat) : Bool :=
  (s.get key).isNone

/-- Index of the first vacant slot, or the length of the arena if none is vacant. -/
def firstVacant (s : Slab T) : Nat :=
  match s.entries.findIdx? Option.isNone with
  | some i => i
  | none => s.entries.length

/-- Inserts a value, returning the key of the slot used (first vacant slot, else a fresh slot at the end). -/
def insert (s : Slab T) (v : T) : Nat × Slab T :=
  let key := s.firstVacant
  if key < s.entries.length then
    (key, ⟨s.entries.set key (some v)⟩)
  else
    (key, ⟨s.entries ++ [some v]⟩)

/-- Model of slab::Slab::try_remove: vacates the slot and returns its value, or none if it was vacant. -/
def try_remove (s : Slab T) (key : Nat) : Option T × Slab T :=
  match s.get key with
  | some v => (some v, ⟨s.entries.set key none⟩)
  | none => (none, s)

/-- Model of slab::Slab::remove, which panics when the slot is vacant; the panic case is surfaced as none in the first component with the state unchanged, and every caller below treats that case as a panic. -/
def remove (s : Slab T) (key : Nat) : Option T × Slab T :=
  try_remove s key

def get_mut_set (s : Slab T) (key : Nat) (v : T) : Slab T :=
  ⟨s.entries.set key (some v)⟩

/-- All values currently stored in the arena. -/
def values (s : Slab T) : List T :=
  s.entries.filterMap id

end Slab

/-! ## SlabLinkedList (src/linked_list.rs) -/

structure SlabNode (T : Type) where
  value : T
  prev_id : Option Nat
  next_id : Option Nat
deriving DecidableEq, Repr

structure SlabLinkedList (T : Type) where
  front_id : Option Nat
  back_id : Option Nat
  len : Nat
  slab : Slab (SlabNode T)
deriving DecidableEq, Repr

namespace SlabLinkedList

def new {T : Type} : SlabLinkedList T :=
  { front_id := none, back_id := none, len := 0, slab := Slab.new }

def is_empty (l : SlabLinkedList T) : Bool :=
  l.len == 0

def front (l : SlabLinkedList T) : Option T :=
  match l.front_id with
  | some fid => (l.slab.get fid).map SlabNode.value
  | none => none

def back (l : SlabLinkedList T) : Option T :=
  match l.back_id with
  | some bid => (l.slab.get bid).map SlabNode.value
  | none => none

/-- Model of pop_front.  The source panics on the mismatched (Some, None) / (None, Some) states and when the front slot is vacant; both are unreachable from well-formed lists and are totalised as (none, unchanged). -/
def pop_front (l : SlabLinkedList T) : Option T × SlabLinkedList T :=
  match l.front_id, l.back_id with
  | none, none => (none, l)
  | some front_id, some back_id =>
    match Slab.remove l.slab front_id with
    | (some front_node, slab1) =>
      if front_id = back_id then
        (some front_node.value,
          { front_id := none, back_id := none, len := l.len - 1, slab := slab1 })
      else
        match front_node.next_id with
        | some next_id =>
          match slab1.get next_id with
          | some next_node =>
            (some front_node.value,
              { front_id := some next_id, back_id := l.back_id, len := l.len - 1,
                slab := slab1.get_mut_set next_id { next_node with prev_id := none } })
          | none => (none, l)
        | none => (none, l)
    | (none, _) => (none, l)
  | _, _ => (none, l)

/-- Model of pop_back, symmetric to pop_front. -/
def pop_back (l : SlabLinkedList T) : Option T × SlabLinkedList T :=
  match l.front_id, l.back_id with
  | none, none => (none, l)
  | some front_id, some back_id =>
    match Slab.remove l.slab back_id with
    | (some back_node, slab1) =>
      if front_id = back_id then
        (some back_node.value,
          { front_id := none, back_id := none, len := l.len - 1, slab := slab1 })
      else
        match back_node.prev_id with
        | some prev_id =>
          match slab1.get prev_id with
          | some prev_node =>
            (some back_node.value,
              { front_id := l.front_id, back_id := some prev_id, len := l.len - 1,
                slab := slab1.get_mut_set prev_id { prev_node with next_id := none } })
          | none => (none, l)
        | none => (none, l)
    | (none, _) => (none, l)
  | _, _ => (none, l)

def push_front (l : SlabLinkedList T) (value : T) : Nat × SlabLinkedList T :=
  match l.front_id with
  | some front_id =>
    let (node_id, slab1) :=
      l.slab.insert { value, prev_id := none, next_id := some front_id }
    match slab1.get front_id with
    | some front_node =>
      (node_id,
        { front_id := some node_id, back_id := l.back_id, len := l.len + 1,
          slab := slab1.get_mut_set front_id { front_node with prev_id := some node_id } })
    | none => (node_id, { l with len := l.len + 1, slab := slab1 })
  | none =>
    let (node_id, slab1) :=
      l.slab.insert { value, prev_id := none, next_id := none }
    (node_id,
      { front_id := some node_id, back_id := some node_id, len := l.len + 1, slab := slab1 })

def push_back (l : SlabLinkedList T) (value : T) : Nat × SlabLinkedList T :=
  match l.back_id with
  | some back_id =>
    let (node_id, slab1) :=
      l.slab.insert { value, prev_id := some back_id, next_id := none }
    match slab1.get back_id with
    | some back_node =>
      (node_id,
        { front_id := l.front_id, back_id := some node_id, len := l.len + 1,
          slab := slab1.get_mut_set back_id { back_node with next_id := some node_id } })
    | none => (node_id, { l with len := l.len + 1, slab := slab1 })
  | none =>
    let (node_id, slab1) :=
      l.slab.insert { value, prev_id := none, next_id := none }
    (node_id,
      { front_id := some node_id, back_id := some node_id, len := l.len + 1, slab := slab1 })

/-- Model of remove(node_id).  Mirrors the source: at the front it delegates to pop_front, at the back to pop_back, otherwise it unlinks via try_remove; the mismatched front/back states return none without mutating, exactly like the source's fall-through arm. -/
def remove (l : SlabLinkedList T) (node_id : Nat) : Option T × SlabLinkedList T :=
  match l.front_id, l.back_id with
  | some front_id, some back_id =>
    if front_id = node_id then
      l.pop_front
    else if back_id = node_id then
      l.pop_back
    else
      match Slab.try_remove l.slab node_id with
      | (some removed_node, slab1) =>
        match removed_node.next_id, removed_node.prev_id with
        | some next_id, some prev_id =>
          match slab1.get prev_id, slab1.get next_id with
          | some prev_node, some next_node =>
            let slab2 := slab1.get_mut_set prev_id { prev_node with next_id := some next_id }
            let slab3 := slab2.get_mut_set next_id { next_node with prev_id := some prev_id }
            (some removed_node.value,
              { front_id := l.front_id, back_id := l.back_id, len := l.len - 1, slab := slab3 })
          | _, _ => (none, l)
        | _, _ => (none, l)
      | (none, _) => (none, l)
  | _, _ => (none, l)

def get_mut_update (l : SlabLinkedList T) (node_id : Nat) (f : T → T) : SlabLinkedList T :=
  match l.slab.get node_id with
  | some node => { l with slab := l.slab.get_mut_set node_id { node with value := f node.value } }
  | none => l

def get (l : SlabLinkedList T) (node_id : Nat) : Option T :=
  (l.slab.get node_id).map SlabNode.value

/-- Fuel-bounded forward walk of the iterator, yielding (node_id, value) pairs front to back; a vacant slot stops the walk (the source panics there, reachable only from corrupt states). -/
def iterFrom (s : Slab (SlabNode T)) : Nat → Option Nat → Option Nat → List (Nat × T)
  | 0, _, _ => []
  | fuel + 1, some node_id, some stop_id =>
    match s.get node_id with
    | some node =>
      if node_id = stop_id then [(node_id, node.value)]
      else (node_id, node.value) :: iterFrom s fuel node.next_id (some stop_id)
    | none => []
  | _ + 1, _, _ => []

/-- List of (node_id, value) pairs produced by the forward iterator. -/
def iterList (l : SlabLinkedList T) : List (Nat × T) :=
  iterFrom l.slab (l.slab.entries.length + 1) l.front_id l.back_id

end SlabLinkedList

/-! ## Order (src/order.rs).  The created_at timestamp is used only for audit and is omitted; id freshness (Uuid::new_v4) is supplied by the caller, see OrderBook.next_id. -/

abbrev Uuid := Nat

structure Order where
  id : Uuid
  quantity : Nat
  price : Nat
deriving DecidableEq, Repr

namespace Order

def new (fresh_id : Uuid) (price : Nat) (quantity : Nat) : Order :=
  { id := fresh_id, price, quantity }

def update_quantity (o : Order) (quantity : Nat) : Order :=
  { o with quantity }

end Order

/-! ## BTreeMap over Nat keys, modelled as an association list sorted strictly by key (std::collections::BTreeMap: iteration is in ascending key order). -/

structure BTreeMap (B : Type) where
  pairs : List (Nat × B)
deriving DecidableEq, Repr

namespace BTreeMap

def new {B : Type} : BTreeMap B := ⟨[]⟩

def get (m : BTreeMap B) (k : Nat) : Option B :=
  (m.pairs.find? (fun p => p.1 = k)).map Prod.snd

/-- Ordered insert, replacing the value at an existing key. -/
def insertAux (k : Nat) (v : B) : List (Nat × B) → List (Nat × B)
  | [] => [(k, v)]
  | (k1, v1) :: rest =>
    if k < k1 then (k, v) :: (k1, v1) :: rest
    else if k = k1 then (k, v) :: rest
    else (k1, v1) :: insertAux k v rest

def insert (m : BTreeMap B) (k : Nat) (v : B) : BTreeMap B :=
  ⟨insertAux k v m.pairs⟩

def remove (m : BTreeMap B) (k : Nat) : BTreeMap B :=
  ⟨m.pairs.filter (fun p => p.1 ≠ k)⟩

end BTreeMap

/-! ## PriceNode and PriceTree (src/price_tree.rs) -/

structure PriceNode where
  linked_list : SlabLinkedList Order
  price : Nat
  total_quantity : Nat
  /-- Modelled from the spec: PriceNode.num_orders() is called by view_book_l2 in src/book.rs but no accessor or field for it appears in src/price_tree.rs (that part of the repository is missing from the sources).  Per the spec's data model a price-node keeps "the running count" of its orders, so the embedding carries it as a field maintained alongside total_quantity. -/
  num_orders : Nat
deriving DecidableEq, Repr

namespace PriceNode

def iterList (n : PriceNode) : List (Nat × Order) :=
  n.linked_list.iterList

end PriceNode

structure OrderKey where
  price_node_id : Nat
  linked_list_node_id : Nat
deriving DecidableEq, Repr

structure PriceTree where
  tree : BTreeMap Nat
  slab : Slab PriceNode
deriving DecidableEq, Repr

namespace PriceTree

def new : PriceTree :=
  { tree := BTreeMap.new, slab := Slab.new }

/-- Model of PriceTree::insert_order.  The source indexes self.slab[price_node_id] and would panic on a vacant slot; that case (unreachable from well-formed trees) is totalised by returning the tree unchanged. -/
def insert_order (t : PriceTree) (order : Order) : OrderKey × PriceTree :=
  let price := order.price
  match t.tree.get price with
  | some price_node_id =>
    match t.slab.get price_node_id with
    | some price_node =>
      let price_node := { price_node with total_quantity := price_node.total_quantity + order.quantity }
      let (linked_list_node_id, new_list) := price_node.linked_list.push_back order
      let price_node := { price_node with linked_list := new_list, num_orders := price_node.num_orders + 1 }
      (⟨price_node_id, linked_list_node_id⟩,
        { t with slab := t.slab.get_mut_set price_node_id price_node })
    | none => (⟨price_node_id, 0⟩, t)
  | none =>
    let empty_node : PriceNode :=
      { linked_list := SlabLinkedList.new, price, total_quantity := order.quantity, num_orders := 1 }
    let (linked_list_node_id, new_list) := empty_node.linked_list.push_back order
    let price_node := { empty_node with linked_list := new_list }
    let (price_node_id, new_slab) := t.slab.insert price_node
    (⟨price_node_id, linked_list_node_id⟩,
      { tree := t.tree.insert price price_node_id, slab := new_slab })

/-- Model of PriceTree::remove_order.  Note the source removes the tree entry keyed by the removed order's own price (order.price()), not by the node's price field; the embedding mirrors that.  Rust would panic if total_quantity underflowed; Nat subtraction truncates instead, which differs only in states where the aggregate is already below the order's quantity. -/
def remove_order (t : PriceTree) (key : OrderKey) : Except String Unit × PriceTree :=
  match t.slab.get key.price_node_id with
  | some price_node =>
    match price_node.linked_list.remove key.linked_list_node_id with
    | (some order, new_list) =>
      if new_list.is_empty then
        (Except.ok (),
          { tree := t.tree.remove order.price,
            slab := (t.slab.try_remove key.price_node_id).2 })
      else
        let new_node : PriceNode :=
          { linked_list := new_list, price := price_node.price,
            total_quantity := price_node.total_quantity - order.quantity,
            num_orders := price_node.num_orders - 1 }
        (Except.ok (), { t with slab := t.slab.get_mut_set key.price_node_id new_node })
    | (none, _) => (Except.error "Order does not exist in linked list", t)
  | none => (Except.error "Order does not exist in tree", t)

/-- Model of PriceTree::update_order_quantity.  Faithful to the source: only the order's own quantity field is written; the price-node's total_quantity aggregate is left untouched. -/
def update_order_quantity (t : PriceTree) (key : OrderKey) (quantity : Nat) : Except String Unit × PriceTree :=
  match t.slab.get key.price_node_id with
  | some price_node =>
    match price_node.linked_list.get key.linked_list_node_id with
    | some _ =>
      let new_list :=
        price_node.linked_list.get_mut_update key.linked_list_node_id
          (fun order => order.update_quantity quantity)
      let new_node : PriceNode := { price_node with linked_list := new_list }
      (Except.ok (), { t with slab := t.slab.get_mut_set key.price_node_id new_node })
    | none => (Except.error "Order does not exist in linked list", t)
  | none => (Except.error "Order does not exist in tree", t)

/-- Modelled from the spec: PriceTree::get_order(handle) is called by src/book.rs but absent from src/price_tree.rs (that part of the repository is missing from the sources).  Per spec section 4.2 it is an O(1) optional lookup through both handles. -/
def get_order (t : PriceTree) (key : OrderKey) : Option Order :=
  match t.slab.get key.price_node_id with
  | some price_node => price_node.linked_list.get key.linked_list_node_id
  | none => none

/-- Forward iterator over the BTreeMap (ascending price), resolving each price-node id through the slab; a vacant slot stops the walk (the source indexes the slab and would panic there). -/
def iterListAux (s : Slab PriceNode) : List (Nat × Nat) → List (Nat × PriceNode)
  | [] => []
  | (_, node_id) :: rest =>
    match s.get node_id with
    | some node => (node_id, node) :: iterListAux s rest
    | none => []

/-- Model of PriceTree::iter(): yields (price_node_id, price_node) in ascending price order. -/
def iterList (t : PriceTree) : List (Nat × PriceNode) :=
  iterListAux t.slab t.tree.pairs

/-- Model of PriceTree::iter().rev() / repeated next_back(): yields (price_node_id, price_node) in descending price order. -/
def iterListBack (t : PriceTree) : List (Nat × PriceNode) :=
  iterListAux t.slab t.tree.pairs.reverse

end PriceTree

/-! ## Order book (src/book.rs).  HashMap and HashSet are modelled as association lists / element lists with the same observable get/insert/remove behaviour. -/

inductive OrderType where
  | Bid
  | Ask
deriving DecidableEq, Repr

/-- Model of struct PartialOrderMatch from src/book.rs (the source name starts with a Lean keyword). -/
structure PartMatch where
  order_key : OrderKey
  remaining_quantity : Nat
deriving DecidableEq, Repr

/-- Model of struct MatchOutcome; part_order is the source's partial_order field. -/
structure MatchOutcome where
  remaining_quantity : Nat
  full_order : List (Uuid × OrderKey)
  part_order : Option PartMatch
deriving DecidableEq, Repr

structure L2Entry where
  price : Nat
  total_quantity : Nat
  num_orders : Nat
deriving DecidableEq, Repr

structure L2Book where
  bid : List L2Entry
  ask : List L2Entry
deriving DecidableEq, Repr

def mapGet {B : Type} (m : List (Nat × B)) (k : Nat) : Option B :=
  (m.find? (fun p => p.1 = k)).map Prod.snd

def mapInsert {B : Type} (m : List (Nat × B)) (k : Nat) (v : B) : List (Nat × B) :=
  (k, v) :: m.filter (fun p => p.1 ≠ k)

def mapRemove {B : Type} (m : List (Nat × B)) (k : Nat) : List (Nat × B) :=
  m.filter (fun p => p.1 ≠ k)

def setContains (s : List Nat) (k : Nat) : Bool :=
  s.contains k

def setInsert (s : List Nat) (k : Nat) : List Nat :=
  if s.contains k then s else k :: s

structure OrderBook where
  bid_tree : PriceTree
  ask_tree : PriceTree
  order_id_map : List (Uuid × (OrderType × OrderKey))
  order_removed_set : List Uuid
  /-- Monotone counter standing in for the global Uuid::new_v4 generator: the next freshly minted order id. -/
  next_id : Uuid
deriving DecidableEq, Repr

namespace OrderBook

def new : OrderBook :=
  { bid_tree := PriceTree.new, ask_tree := PriceTree.new,
    order_id_map := [], order_removed_set := [], next_id := 0 }

/-- Inner loop of find_matching_orders over one price level, front to back (oldest first).  Returns (remaining, full matches, the at-most-one part match, early-return flag); the flag mirrors the source's return-on-zero-remaining inside the for loop. -/
def matchOrdersInLevel (price_node_id : Nat) :
    List (Nat × Order) → Nat → List (Uuid × OrderKey) → Option PartMatch →
    Nat × List (Uuid × OrderKey) × Option PartMatch × Bool
  | [], remaining, full, pm => (remaining, full, pm, false)
  | (linked_list_node_id, existing_order) :: rest, remaining, full, pm =>
    let order_key : OrderKey := ⟨price_node_id, linked_list_node_id⟩
    if existing_order.quantity ≤ remaining then
      let remaining1 := remaining - existing_order.quantity
      let full1 := full ++ [(existing_order.id, order_key)]
      if remaining1 = 0 then (0, full1, pm, true)
      else matchOrdersInLevel price_node_id rest remaining1 full1 pm
    else
      (0, full, some ⟨order_key, existing_order.quantity - remaining⟩, true)

/-- Outer loop of find_matching_orders: takes successive price levels from the given walk, stopping at the first level whose price fails the acceptability test (the source's break) or when the inner loop returned early. -/
def walkLevels (acceptable : Nat → Bool) :
    List (Nat × PriceNode) → Nat → List (Uuid × OrderKey) → Option PartMatch → MatchOutcome
  | [], remaining, full, pm => ⟨remaining, full, pm⟩
  | (price_node_id, price_node) :: rest, remaining, full, pm =>
    if acceptable price_node.price then
      match matchOrdersInLevel price_node_id price_node.iterList remaining full pm with
      | (remaining1, full1, pm1, done) =>
        if done then ⟨remaining1, full1, pm1⟩
        else walkLevels acceptable rest remaining1 full1 pm1
    else ⟨remaining, full, pm⟩

/-- Model of OrderBook::find_matching_orders.  Faithful to the source's walk directions: an Ask aggressor takes tree_iter.next() on the bid tree (ascending bid prices) and continues while bid price >= incoming price; a Bid aggressor takes tree_iter.next_back() on the ask tree (descending ask prices) and continues while ask price <= incoming price. -/
def find_matching_orders (b : OrderBook) (incoming_order : Order) (order_type : OrderType) : MatchOutcome :=
  match order_type with
  | OrderType.Ask =>
    walkLevels (fun p => incoming_order.price ≤ p) b.bid_tree.iterList
      incoming_order.quantity [] none
  | OrderType.Bid =>
    walkLevels (fun p => p ≤ incoming_order.price) b.ask_tree.iterListBack
      incoming_order.quantity [] none

end OrderBook

/-- Fill record as printed by the clearing-house block of place_order: one line per consumed resting order. -/
structure Fill where
  resting_id : Uuid
  quantity : Nat
  price : Nat
deriving DecidableEq, Repr

/-- Resolves the full matches of an outcome against the matched tree, as the clearing-house block does with get_order(key).unwrap(): none models the panic on a dead handle. -/
def fullFills (tree : PriceTree) : List (Uuid × OrderKey) → Option (List Fill)
  | [] => some []
  | (_, order_key) :: rest =>
    match tree.get_order order_key with
    | some o => (fullFills tree rest).map (fun fs => ⟨o.id, o.quantity, o.price⟩ :: fs)
    | none => none

/-- Resolves the at-most-one part match: the printed quantity is the resting order's quantity minus its post-trade remaining quantity. -/
def partFills (tree : PriceTree) : Option PartMatch → Option (List Fill)
  | none => some []
  | some pm =>
    match tree.get_order pm.order_key with
    | some o => some [⟨o.id, o.quantity - pm.remaining_quantity, o.price⟩]
    | none => none

/-- The fill trace of a match outcome, in the order the clearing-house block reports it: full matches in walk order, then the part match. -/
def MatchOutcome.fillsOf (tree : PriceTree) (mo : MatchOutcome) : Option (List Fill) :=
  match fullFills tree mo.full_order with
  | some ff =>
    match partFills tree mo.part_order with
    | some pf => some (ff ++ pf)
    | none => none
  | none => none

namespace OrderBook

/-- The removal pass of place_order over the fully matched resting orders: remove from the matched ladder (unwrap: none models the panic), erase from the id index, insert into the tombstone set. -/
def removeFullMatches :
    List (Uuid × OrderKey) → PriceTree → List (Uuid × (OrderType × OrderKey)) → List Uuid →
    Option (PriceTree × List (Uuid × (OrderType × OrderKey)) × List Uuid)
  | [], t, m, s => some (t, m, s)
  | (filled_order_id, order_key) :: rest, t, m, s =>
    match t.remove_order order_key with
    | (Except.ok _, t1) =>
      removeFullMatches rest t1 (mapRemove m filled_order_id) (setInsert s filled_order_id)
    | (Except.error _, _) => none

/-- Model of OrderBook::place_order.  The outer Option layer models Rust panics (the unwraps on get_order, remove_order and update_order_quantity); the Except layer is the source's Result. -/
def place_order (b : OrderBook) (price : Nat) (quantity : Nat) (order_type : OrderType) :
    Option (Except String Uuid × OrderBook) :=
  if quantity = 0 ∨ price = 0 then
    some (Except.error "Price or quantity should be bigger than 0", b)
  else
    let order := Order.new b.next_id price quantity
    let match_outcome := b.find_matching_orders order order_type
    let tree_to_remove :=
      match order_type with
      | OrderType.Ask => b.bid_tree
      | OrderType.Bid => b.ask_tree
    let printed : Option Unit :=
      if match_outcome.remaining_quantity ≠ order.quantity then
        (MatchOutcome.fillsOf tree_to_remove match_outcome).map (fun _ => ())
      else some ()
    match printed with
    | none => none
    | some _ =>
      match removeFullMatches match_outcome.full_order tree_to_remove
          b.order_id_map b.order_removed_set with
      | none => none
      | some (t1, m1, s1) =>
        let updated : Option PriceTree :=
          match match_outcome.part_order with
          | some pm =>
            match t1.update_order_quantity pm.order_key pm.remaining_quantity with
            | (Except.ok _, t2) => some t2
            | (Except.error _, _) => none
          | none => some t1
        match updated with
        | none => none
        | some t2 =>
          let order := order.update_quantity match_outcome.remaining_quantity
          let order_id := order.id
          let b1 :=
            match order_type with
            | OrderType.Ask =>
              { b with bid_tree := t2, order_id_map := m1, order_removed_set := s1 }
            | OrderType.Bid =>
              { b with ask_tree := t2, order_id_map := m1, order_removed_set := s1 }
          let b2 :=
            if 0 < order.quantity then
              match order_type with
              | OrderType.Ask =>
                let (order_key, t3) := b1.ask_tree.insert_order order
                let m2 := mapInsert b1.order_id_map order_id (order_type, order_key)
                { b1 with ask_tree := t3, order_id_map := m2 }
              | OrderType.Bid =>
                let (order_key, t3) := b1.bid_tree.insert_order order
                let m2 := mapInsert b1.order_id_map order_id (order_type, order_key)
                { b1 with bid_tree := t3, order_id_map := m2 }
            else
              { b1 with order_removed_set := setInsert b1.order_removed_set order_id }
          some (Except.ok order_id, { b2 with next_id := b2.next_id + 1 })

/-- Model of OrderBook::cancel_order.  Faithful to the source: after a successful removal the function still falls through to the generic error return; there is no ok path. -/
def cancel_order (b : OrderBook) (order_id : Uuid) : Option (Except String Unit × OrderBook) :=
  if setContains b.order_removed_set order_id then
    some (Except.error "Order is already removed from the book", b)
  else
    match mapGet b.order_id_map order_id with
    | some (order_type, order_key) =>
      let tree_to_remove :=
        match order_type with
        | OrderType.Ask => b.ask_tree
        | OrderType.Bid => b.bid_tree
      match tree_to_remove.remove_order order_key with
      | (Except.ok _, t1) =>
        let b1 :=
          match order_type with
          | OrderType.Ask => { b with ask_tree := t1 }
          | OrderType.Bid => { b with bid_tree := t1 }
        let m2 := mapRemove b1.order_id_map order_id
        let s2 := setInsert b1.order_removed_set order_id
        let b2 := { b1 with order_id_map := m2, order_removed_set := s2 }
        some (Except.error "Order annot be found", b2)
      | (Except.error _, _) => none
    | none => some (Except.error "Order annot be found", b)

/-- Model of OrderBook::view_book_l2: both sides are emitted by the forward (ascending-price) iterator of their ladder. -/
def view_book_l2 (b : OrderBook) : L2Book :=
  { bid := b.bid_tree.iterList.map (fun p => ⟨p.2.price, p.2.total_quantity, p.2.num_orders⟩),
    ask := b.ask_tree.iterList.map (fun p => ⟨p.2.price, p.2.total_quantity, p.2.num_orders⟩) }

end OrderBook

/-! ## Operation sequences over the book, for the invariant claims. -/

inductive BookOp where
  | place (price : Nat) (quantity : Nat) (order_type : OrderType)
  | cancel (order_id : Uuid)
deriving DecidableEq, Repr

/-- Applies one operation; a panicking operation (none) aborts the process, so no post-state is observable and the fold keeps the previous state. -/
def applyOp (b : OrderBook) : BookOp → OrderBook
  | BookOp.place price quantity order_type =>
    match b.place_order price quantity order_type with
    | some (_, b1) => b1
    | none => b
  | BookOp.cancel order_id =>
    match b.cancel_order order_id with
    | some (_, b1) => b1
    | none => b

def applyOps (ops : List BookOp) (b : OrderBook) : OrderBook :=
  ops.foldl applyOp b

/-! ## Derived notions and well-formedness predicates used by the theorems. -/

/-- The ladder an order of the given side rests on (and is cancelled from). -/
def OrderBook.ownTree (b : OrderBook) : OrderType → PriceTree
  | OrderType.Ask => b.ask_tree
  | OrderType.Bid => b.bid_tree

/-- The ladder an aggressor of the given side matches against. -/
def OrderBook.oppositeTree (b : OrderBook) : OrderType → PriceTree
  | OrderType.Ask => b.bid_tree
  | OrderType.Bid => b.ask_tree

/-- Well-sortedness of a price ladder: the BTreeMap pairs are strictly ascending in price and every mapped price-node id resolves to a node carrying that price. -/
def PriceTree.wfSorted (t : PriceTree) : Prop :=
  List.Pairwise (· < ·) (t.tree.pairs.map Prod.fst) ∧
  ∀ p ∈ t.tree.pairs, (t.slab.get p.2).map PriceNode.price = some p.1

/-- Level price agreement: every order stored in a level's queue carries the level's price. -/
def PriceTree.wfLevels (t : PriceTree) : Prop :=
  ∀ p ∈ t.tree.pairs, ∀ q ∈ ((t.slab.get p.2).map PriceNode.iterList).getD [], (q.2 : Order).price = p.1

instance (t : PriceTree) : Decidable t.wfSorted := by
  unfold PriceTree.wfSorted; infer_instance

instance (t : PriceTree) : Decidable t.wfLevels := by
  unfold PriceTree.wfLevels; infer_instance

namespace SlabLinkedList

def isLive (l : SlabLinkedList T) (node_id : Nat) : Bool :=
  (l.slab.get node_id).isSome

/-- Fuel-bounded forward structural walk: follows next pointers from cur, checking that each visited node's prev pointer equals the id just visited, and returns the list of visited ids (none when the fuel runs out or a link is inconsistent). -/
def walkF (s : Slab (SlabNode T)) : Nat → Option Nat → Option Nat → Option (List Nat)
  | _, none, _ => some []
  | 0, some _, _ => none
  | fuel + 1, some c, prev =>
    match s.get c with
    | some node =>
      if node.prev_id = prev then (walkF s fuel node.next_id (some c)).map (fun ids => c :: ids)
      else none
    | none => none

/-- Executable well-formedness of a linked list: the forward walk from front succeeds within len steps, visits exactly len distinct ids, and ends at back. -/
def wfCheck (l : SlabLinkedList T) : Bool :=
  match walkF l.slab l.len l.front_id none with
  | some ids => ids.length == l.len && decide ids.Nodup && (ids.getLast? == l.back_id)
  | none => false

end SlabLinkedList

/-- Relational version of the forward walk, used to reason about wfCheck. -/
inductive WalkRel {T : Type} (s : Slab (SlabNode T)) : Option Nat → Option Nat → List Nat → Prop
  | nil (prev : Option Nat) : WalkRel s none prev []
  | cons (c : Nat) (prev : Option Nat) (node : SlabNode T) (ids : List Nat) :
      s.get c = some node → node.prev_id = prev →
      WalkRel s node.next_id (some c) ids →
      WalkRel s (some c) prev (c :: ids)

/-- Ids of the orders stored in one price level. -/
def PriceNode.orderIds (n : PriceNode) : List Uuid :=
  n.linked_list.slab.values.map (fun nd => nd.value.id)

/-- Ids of all orders resting anywhere on a ladder. -/
def PriceTree.orderIds (t : PriceTree) : List Uuid :=
  (t.slab.values.map PriceNode.orderIds).flatten

/-- Inductive invariant carried through operation sequences: the id index and tombstone set are disjoint, and every identifier the book has ever handed out (index keys, tombstones, ids of resting orders) is below the freshness counter. -/
def BookInv (b : OrderBook) : Prop :=
  (∀ k ∈ b.order_id_map.map Prod.fst, k ∉ b.order_removed_set) ∧
  (∀ k ∈ b.order_id_map.map Prod.fst, k < b.next_id) ∧
  (∀ k ∈ b.order_removed_set, k < b.next_id) ∧
  (∀ k ∈ b.bid_tree.orderIds, k < b.next_id) ∧
  (∀ k ∈ b.ask_tree.orderIds, k < b.next_id)


/-- Quantity of the resting order a full-match entry points at (0 for a dead handle; the clearing-house block would panic there instead). -/
def keyQty (tree : PriceTree) (p : Uuid × OrderKey) : Nat :=
  match tree.get_order p.2 with
  | some o => o.quantity
  | none => 0

/-- Fill quantity contributed by the at-most-one part match: the resting order's quantity minus its post-trade remaining quantity, as printed by the clearing-house block. -/
def partQty (tree : PriceTree) : Option PartMatch → Nat
  | none => 0
  | some pm => keyQty tree (0, pm.order_key) - pm.remaining_quantity

/-- Quantity with which the aggressor rests on its own ladder, read off place_order: the order's quantity is set to the outcome's remaining quantity and it is inserted exactly when that is positive (src/book.rs lines 138-151), so it rests with the remaining quantity, and with 0 when fully filled. -/
def restedQuantity (mo : MatchOutcome) : Nat :=
  if 0 < mo.remaining_quantity then mo.remaining_quantity else 0

/-! ## Claim theorems and their supporting lemmas. -/

/-- C2 (failing-input evaluation): on the book obtained by placing Ask price 100 quantity 10 on the empty book, order id 0 is resting (present in the id index, absent from the tombstone set), yet cancel_order 0 returns the generic not-found error: the source's success path falls through to the error return instead of succeeding ok. -/
theorem c2_cancel_of_resting_order_returns_error :
    (mapGet (applyOps [BookOp.place 100 10 OrderType.Ask] OrderBook.new).order_id_map 0).isSome = true ∧
    setContains (applyOps [BookOp.place 100 10 OrderType.Ask] OrderBook.new).order_removed_set 0 = false ∧
    ((applyOps [BookOp.place 100 10 OrderType.Ask] OrderBook.new).cancel_order 0).map Prod.fst =
      some (Except.error "Order annot be found") :=
  ⟨rfl, rfl, rfl⟩

/-- C4 (failing-input evaluation): on a ladder holding one order of quantity 10 at price 100, update_order_quantity to 4 (which satisfies 0 < 4 < 10) returns ok and sets the order's quantity to 4, but the owning price-node's total_quantity stays 10 instead of decreasing by the delta to 4. -/
theorem c4_update_order_quantity_leaves_aggregate_stale :
    ((PriceTree.new.insert_order (Order.new 0 100 10)).2.update_order_quantity
      (PriceTree.new.insert_order (Order.new 0 100 10)).1 4).1 = Except.ok () ∧
    (((PriceTree.new.insert_order (Order.new 0 100 10)).2.update_order_quantity
      (PriceTree.new.insert_order (Order.new 0 100 10)).1 4).2.get_order
      (PriceTree.new.insert_order (Order.new 0 100 10)).1).map Order.quantity = some 4 ∧
    (((PriceTree.new.insert_order (Order.new 0 100 10)).2.update_order_quantity
      (PriceTree.new.insert_order (Order.new 0 100 10)).1 4).2.slab.get
      (PriceTree.new.insert_order (Order.new 0 100 10)).1.price_node_id).map
      PriceNode.total_quantity = some 10 :=
  ⟨rfl, rfl, rfl⟩

/-- C5 (failing-input evaluation): after the operation sequence place Ask 100 qty 10, place Bid 100 qty 4 from the empty book, the surviving ask price-node reports total_quantity 10 while the sum of the remaining quantities in its queue is 6: the aggregate invariant is broken by the part-fill path of place_order. -/
theorem c5_aggregate_invariant_broken_by_part_fill :
    ((applyOps [BookOp.place 100 10 OrderType.Ask, BookOp.place 100 4 OrderType.Bid]
      OrderBook.new).ask_tree.slab.get 0).map PriceNode.total_quantity = some 10 ∧
    ((applyOps [BookOp.place 100 10 OrderType.Ask, BookOp.place 100 4 OrderType.Bid]
      OrderBook.new).ask_tree.slab.get 0).map
      (fun n => (n.iterList.map (fun q => q.2.quantity)).sum) = some 6 :=
  ⟨rfl, rfl⟩

/-- C1 (failing-input evaluation): with asks resting at 90 and 110 (each quantity 5), a Bid aggressor at price 100 quantity 5 produces no fills at all: find_matching_orders walks the ask ladder via next_back (descending), meets price 110 first, fails the acceptability test and breaks, never reaching the crossable ask at 90. -/
theorem c1_bid_walk_descends_and_misses_crossable_ask :
    ((applyOps [BookOp.place 90 5 OrderType.Ask, BookOp.place 110 5 OrderType.Ask]
      OrderBook.new).ask_tree.tree.get 90).isSome = true ∧
    (applyOps [BookOp.place 90 5 OrderType.Ask, BookOp.place 110 5 OrderType.Ask]
      OrderBook.new).find_matching_orders
      (Order.new (applyOps [BookOp.place 90 5 OrderType.Ask, BookOp.place 110 5 OrderType.Ask]
        OrderBook.new).next_id 100 5) OrderType.Bid =
      { remaining_quantity := 5, full_order := [], part_order := none } :=
  ⟨rfl, rfl⟩

/-- C8: place_order with zero price or zero quantity returns the Rejected error and leaves the whole book state (both ladders, id index, tombstone set, freshness counter) unchanged. -/
theorem c8_place_order_zero_rejected_state_unchanged (b : OrderBook) (price quantity : Nat)
    (order_type : OrderType) (h : price = 0 ∨ quantity = 0) :
    b.place_order price quantity order_type =
      some (Except.error "Price or quantity should be bigger than 0", b) := by
  unfold OrderBook.place_order
  rcases h with h | h <;> simp [h]

/-- C8 witness: concrete instantiation at price 0, quantity 7, Bid, on the empty book. -/
theorem c8_place_order_zero_rejected_witness :
    OrderBook.new.place_order 0 7 OrderType.Bid =
      some (Except.error "Price or quantity should be bigger than 0", OrderBook.new) :=
  c8_place_order_zero_rejected_state_unchanged OrderBook.new 0 7 OrderType.Bid (Or.inl rfl)

/-- C6 (counterexample): with bids resting at 100 and 101, view_book_l2 lists the bid side in ascending price order, [100, 101], which is not strictly decreasing, refuting the claimed best-bid-first order. -/
theorem c6_counterexample_bids_listed_ascending :
    let b := applyOps [BookOp.place 100 5 OrderType.Bid, BookOp.place 101 5 OrderType.Bid] OrderBook.new
    (b.view_book_l2).bid.map L2Entry.price = [100, 101] ∧
    ¬ List.Pairwise (fun x y => x > y) ((b.view_book_l2).bid.map L2Entry.price) :=
  ⟨rfl, by decide⟩

/-! ### Arena lemmas -/

theorem Slab.get_lt_length {T : Type} {s : Slab T} {k : Nat} {v : T} (h : s.get k = some v) :
    k < s.entries.length := by
  unfold Slab.get at h
  rcases Nat.lt_or_ge k s.entries.length with hk | hk
  · exact hk
  · rw [List.getElem?_eq_none hk] at h
    simp at h

theorem Slab.get_set_self {T : Type} (s : Slab T) (k : Nat) (v : T) (h : k < s.entries.length) :
    (s.get_mut_set k v).get k = some v := by
  unfold Slab.get Slab.get_mut_set
  simp [List.getElem?_set_self h]

theorem Slab.get_set_ne {T : Type} (s : Slab T) {k k' : Nat} (v : T) (h : k ≠ k') :
    (s.get_mut_set k v).get k' = s.get k' := by
  unfold Slab.get Slab.get_mut_set
  simp [List.getElem?_set_ne h]

theorem Slab.get_try_remove_self {T : Type} (s : Slab T) (k : Nat) :
    ((s.try_remove k).2).get k = none := by
  unfold Slab.try_remove
  cases h : s.get k with
  | none => simpa using h
  | some v =>
    unfold Slab.get
    simp [List.getElem?_set_self (Slab.get_lt_length h)]

theorem Slab.get_try_remove_ne {T : Type} (s : Slab T) {k k' : Nat} (h : k ≠ k') :
    ((s.try_remove k).2).get k' = s.get k' := by
  unfold Slab.try_remove
  cases hg : s.get k with
  | none => rfl
  | some v =>
    unfold Slab.get
    simp [List.getElem?_set_ne h]

/-! ### Linked-list removal lemmas -/

theorem SlabLinkedList.pop_front_get_front_none {T : Type} {l : SlabLinkedList T} {n : Nat} {v : T}
    {l' : SlabLinkedList T} (hf : l.front_id = some n) (h : l.pop_front = (some v, l')) :
    l'.get n = none := by
  unfold SlabLinkedList.pop_front at h
  rw [hf] at h
  cases hb : l.back_id with
  | none => rw [hb] at h; dsimp only at h; cases h
  | some bk =>
    rw [hb] at h
    dsimp only at h
    cases hrem : Slab.remove l.slab n with
    | mk val slab1 =>
      rw [hrem] at h
      have hslab1 : slab1 = (l.slab.try_remove n).2 := by
        have := congrArg Prod.snd hrem
        simpa [Slab.remove] using this.symm
      cases val with
      | none => dsimp only at h; cases h
      | some fnode =>
        dsimp only at h
        by_cases hfb : n = bk
        · rw [if_pos hfb] at h
          injection h with h1 h2
          subst h2
          unfold SlabLinkedList.get
          simp [hslab1, Slab.get_try_remove_self]
        · rw [if_neg hfb] at h
          cases hnx : fnode.next_id with
          | none => rw [hnx] at h; dsimp only at h; cases h
          | some nx =>
            rw [hnx] at h
            dsimp only at h
            cases hnxg : slab1.get nx with
            | none => rw [hnxg] at h; dsimp only at h; cases h
            | some next_node =>
              rw [hnxg] at h
              dsimp only at h
              injection h with h1 h2
              subst h2
              unfold SlabLinkedList.get
              have hvac : slab1.get n = none := by
                rw [hslab1]; exact Slab.get_try_remove_self l.slab n
              have hne : nx ≠ n := by
                intro he; rw [he, hvac] at hnxg; cases hnxg
              rw [Slab.get_set_ne _ _ hne, hvac]
              rfl

theorem SlabLinkedList.pop_back_get_back_none {T : Type} {l : SlabLinkedList T} {n : Nat} {v : T}
    {l' : SlabLinkedList T} (hbk : l.back_id = some n) (h : l.pop_back = (some v, l')) :
    l'.get n = none := by
  unfold SlabLinkedList.pop_back at h
  rw [hbk] at h
  cases hfr : l.front_id with
  | none => rw [hfr] at h; dsimp only at h; cases h
  | some fr =>
    rw [hfr] at h
    dsimp only at h
    cases hrem : Slab.remove l.slab n with
    | mk val slab1 =>
      rw [hrem] at h
      have hslab1 : slab1 = (l.slab.try_remove n).2 := by
        have := congrArg Prod.snd hrem
        simpa [Slab.remove] using this.symm
      cases val with
      | none => dsimp only at h; cases h
      | some bnode =>
        dsimp only at h
        by_cases hfb : fr = n
        · rw [if_pos hfb] at h
          injection h with h1 h2
          subst h2
          unfold SlabLinkedList.get
          simp [hslab1, Slab.get_try_remove_self]
        · rw [if_neg hfb] at h
          cases hpv : bnode.prev_id with
          | none => rw [hpv] at h; dsimp only at h; cases h
          | some pv =>
            rw [hpv] at h
            dsimp only at h
            cases hpvg : slab1.get pv with
            | none => rw [hpvg] at h; dsimp only at h; cases h
            | some prev_node =>
              rw [hpvg] at h
              dsimp only at h
              injection h with h1 h2
              subst h2
              unfold SlabLinkedList.get
              have hvac : slab1.get n = none := by
                rw [hslab1]; exact Slab.get_try_remove_self l.slab n
              have hne : pv ≠ n := by
                intro he; rw [he, hvac] at hpvg; cases hpvg
              rw [Slab.get_set_ne _ _ hne, hvac]
              rfl

/-- Successful removal leaves the removed handle dead: looking it up afterwards yields none. -/
theorem SlabLinkedList.remove_get_none {T : Type} {l : SlabLinkedList T} {n : Nat} {v : T}
    {l' : SlabLinkedList T} (h : l.remove n = (some v, l')) : l'.get n = none := by
  unfold SlabLinkedList.remove at h
  cases hf : l.front_id with
  | none =>
    rw [hf] at h
    cases l.back_id <;> dsimp only at h <;> cases h
  | some fr =>
    cases hb : l.back_id with
    | none => rw [hf, hb] at h; dsimp only at h; cases h
    | some bk =>
      rw [hf, hb] at h
      dsimp only at h
      by_cases hfn : fr = n
      · rw [if_pos hfn] at h
        exact SlabLinkedList.pop_front_get_front_none (hfn ▸ hf) h
      · rw [if_neg hfn] at h
        by_cases hbn : bk = n
        · rw [if_pos hbn] at h
          exact SlabLinkedList.pop_back_get_back_none (hbn ▸ hb) h
        · rw [if_neg hbn] at h
          cases htr : Slab.try_remove l.slab n with
          | mk val slab1 =>
            rw [htr] at h
            have hslab1 : slab1 = (l.slab.try_remove n).2 := (congrArg Prod.snd htr).symm
            cases val with
            | none => dsimp only at h; cases h
            | some rnode =>
              dsimp only at h
              cases hnx : rnode.next_id with
              | none => rw [hnx] at h; dsimp only at h; cases h
              | some nx =>
                rw [hnx] at h
                cases hpv : rnode.prev_id with
                | none => rw [hpv] at h; dsimp only at h; cases h
                | some pv =>
                  rw [hpv] at h
                  dsimp only at h
                  cases hpvg : slab1.get pv with
                  | none => rw [hpvg] at h; dsimp only at h; cases h
                  | some prev_node =>
                    rw [hpvg] at h
                    cases hnxg : slab1.get nx with
                    | none => rw [hnxg] at h; dsimp only at h; cases h
                    | some next_node =>
                      rw [hnxg] at h
                      dsimp only at h
                      injection h with h1 h2
                      subst h2
                      unfold SlabLinkedList.get
                      have hvac : slab1.get n = none := by
                        rw [hslab1]; exact Slab.get_try_remove_self l.slab n
                      have hnen : pv ≠ n := by
                        intro he; rw [he, hvac] at hpvg; cases hpvg
                      have hnxn : nx ≠ n := by
                        intro he; rw [he, hvac] at hnxg; cases hnxg
                      rw [Slab.get_set_ne _ _ hnxn, Slab.get_set_ne _ _ hnen, hvac]
                      rfl

/-- Successful ladder removal leaves the composite handle dead: get_order on it afterwards yields none. -/
theorem PriceTree.remove_order_get_none {t : PriceTree} {key : OrderKey} {t' : PriceTree}
    (h : t.remove_order key = (Except.ok (), t')) : t'.get_order key = none := by
  unfold PriceTree.remove_order at h
  cases hgn : t.slab.get key.price_node_id with
  | none => rw [hgn] at h; dsimp only at h; cases h
  | some price_node =>
    rw [hgn] at h
    dsimp only at h
    cases hrm : price_node.linked_list.remove key.linked_list_node_id with
    | mk val new_list =>
      rw [hrm] at h
      cases val with
      | none => dsimp only at h; cases h
      | some order =>
        dsimp only at h
        by_cases hemp : new_list.is_empty = true
        · rw [if_pos hemp] at h
          injection h with h1 h2
          subst h2
          unfold PriceTree.get_order
          dsimp only
          rw [Slab.get_try_remove_self]
        · rw [if_neg hemp] at h
          injection h with h1 h2
          subst h2
          unfold PriceTree.get_order
          dsimp only
          rw [Slab.get_set_self _ _ _ (Slab.get_lt_length hgn)]
          exact SlabLinkedList.remove_get_none hrm

/-! ### Map and set model lemmas -/

theorem mapGet_mapRemove_self {B : Type} (m : List (Nat × B)) (k : Nat) :
    mapGet (mapRemove m k) k = none := by
  unfold mapGet mapRemove
  have : List.find? (fun p => decide (p.1 = k)) (m.filter (fun p => decide (p.1 ≠ k))) = none := by
    rw [List.find?_eq_none]
    intro x hx
    have hmem := (List.mem_filter.mp hx).2
    simp at hmem
    simp [hmem]
  rw [this]
  rfl

theorem setContains_setInsert_self (s : List Nat) (k : Nat) :
    setContains (setInsert s k) k = true := by
  unfold setContains setInsert
  by_cases h : k ∈ s <;> simp [h]

/-- C3: when order id X is resting (present in the id index, absent from the tombstone set) and cancel_order X runs to completion, the post state has X's order removed from its side's ladder, X erased from the id index, and X inserted into the tombstone set, whatever result value res the call returned. -/
theorem c3_cancel_order_mutates_state_regardless_of_result
    (b : OrderBook) (x : Uuid) (ot : OrderType) (key : OrderKey)
    (hts : setContains b.order_removed_set x = false)
    (hmap : mapGet b.order_id_map x = some (ot, key))
    (res : Except String Unit) (b' : OrderBook)
    (hcall : b.cancel_order x = some (res, b')) :
    mapGet b'.order_id_map x = none ∧
    setContains b'.order_removed_set x = true ∧
    (b'.ownTree ot).get_order key = none := by
  unfold OrderBook.cancel_order at hcall
  rw [hts] at hcall
  simp only [Bool.false_eq_true, if_false] at hcall
  rw [hmap] at hcall
  dsimp only at hcall
  cases ot with
  | Ask =>
    cases hrm : b.ask_tree.remove_order key with
    | mk r t1 =>
      rw [hrm] at hcall
      cases r with
      | error e => dsimp only at hcall; cases hcall
      | ok u =>
        cases u
        dsimp only at hcall
        injection hcall with h1
        injection h1 with h1a h1b
        subst h1b
        refine ⟨mapGet_mapRemove_self _ _, setContains_setInsert_self _ _, ?_⟩
        exact PriceTree.remove_order_get_none hrm
  | Bid =>
    cases hrm : b.bid_tree.remove_order key with
    | mk r t1 =>
      rw [hrm] at hcall
      cases r with
      | error e => dsimp only at hcall; cases hcall
      | ok u =>
        cases u
        dsimp only at hcall
        injection hcall with h1
        injection h1 with h1a h1b
        subst h1b
        refine ⟨mapGet_mapRemove_self _ _, setContains_setInsert_self _ _, ?_⟩
        exact PriceTree.remove_order_get_none hrm

/-- C3 witness: the hypotheses and call of the theorem instantiated on the book holding one resting ask order with id 0. -/
theorem c3_cancel_order_mutates_witness :
    mapGet (applyOps [BookOp.place 100 10 OrderType.Ask] OrderBook.new).order_id_map 0 =
        some (OrderType.Ask, ⟨0, 0⟩) ∧
    (mapGet (applyOps [BookOp.place 100 10 OrderType.Ask, BookOp.cancel 0] OrderBook.new).order_id_map 0 = none ∧
     setContains (applyOps [BookOp.place 100 10 OrderType.Ask, BookOp.cancel 0] OrderBook.new).order_removed_set 0 = true ∧
     ((applyOps [BookOp.place 100 10 OrderType.Ask, BookOp.cancel 0] OrderBook.new).ownTree OrderType.Ask).get_order ⟨0, 0⟩ = none) := by
  refine ⟨rfl, ?_⟩
  exact c3_cancel_order_mutates_state_regardless_of_result
    (applyOps [BookOp.place 100 10 OrderType.Ask] OrderBook.new) 0 OrderType.Ask ⟨0, 0⟩ rfl rfl
    (Except.error "Order annot be found")
    (applyOps [BookOp.place 100 10 OrderType.Ask, BookOp.cancel 0] OrderBook.new) rfl

/-! ### Walk lemmas for linked-list well-formedness (claim C9) -/

theorem SlabLinkedList.walkF_sound {T : Type} {s : Slab (SlabNode T)} :
    ∀ {fuel : Nat} {cur prev : Option Nat} {ids : List Nat},
      SlabLinkedList.walkF s fuel cur prev = some ids → WalkRel s cur prev ids := by
  intro fuel
  induction fuel with
  | zero =>
    intro cur prev ids h
    cases cur with
    | none =>
      simp only [SlabLinkedList.walkF] at h
      cases h
      exact WalkRel.nil prev
    | some c =>
      simp only [SlabLinkedList.walkF] at h
      cases h
  | succ fuel ih =>
    intro cur prev ids h
    cases cur with
    | none =>
      simp only [SlabLinkedList.walkF] at h
      cases h
      exact WalkRel.nil prev
    | some c =>
      simp only [SlabLinkedList.walkF] at h
      cases hg : s.get c with
      | none => rw [hg] at h; cases h
      | some node =>
        rw [hg] at h
        dsimp only at h
        by_cases hp : node.prev_id = prev
        · rw [if_pos hp] at h
          cases hw : SlabLinkedList.walkF s fuel node.next_id (some c) with
          | none => rw [hw] at h; cases h
          | some tail =>
            rw [hw] at h
            dsimp only [Option.map] at h
            injection h with h1
            subst h1
            exact WalkRel.cons c prev node tail hg hp (ih hw)
        · rw [if_neg hp] at h
          cases h

theorem walkRel_live {T : Type} {s : Slab (SlabNode T)} {cur prev : Option Nat} {ids : List Nat}
    (h : WalkRel s cur prev ids) : ∀ i ∈ ids, (s.get i).isSome = true := by
  induction h with
  | nil => intro i hi; cases hi
  | cons c prev node ids hg hp hrec ih =>
    intro i hi
    rcases List.mem_cons.mp hi with rfl | hi
    · rw [hg]; rfl
    · exact ih i hi

theorem SlabLinkedList.wfCheck_spec {T : Type} {q : SlabLinkedList T} (hwf : q.wfCheck = true) :
    ∃ ids, SlabLinkedList.walkF q.slab q.len q.front_id none = some ids ∧
      ids.length = q.len ∧ ids.Nodup ∧ ids.getLast? = q.back_id := by
  unfold SlabLinkedList.wfCheck at hwf
  cases hw : SlabLinkedList.walkF q.slab q.len q.front_id none with
  | none => rw [hw] at hwf; cases hwf
  | some ids =>
    rw [hw] at hwf
    dsimp only at hwf
    rw [Bool.and_eq_true, Bool.and_eq_true] at hwf
    obtain ⟨⟨h1, h2⟩, h3⟩ := hwf
    refine ⟨ids, rfl, by simpa using h1, by simpa using h2, by simpa using h3⟩

theorem SlabLinkedList.wf_front_live {T : Type} {q : SlabLinkedList T} (hwf : q.wfCheck = true)
    {f : Nat} (hf : q.front_id = some f) : q.isLive f = true := by
  obtain ⟨ids, hw, h1, h2, h3⟩ := SlabLinkedList.wfCheck_spec hwf
  rw [hf] at hw
  have hrel := SlabLinkedList.walkF_sound hw
  cases hrel with
  | cons c prev node ids hg hp hrec =>
    unfold SlabLinkedList.isLive
    rw [hg]
    rfl

theorem SlabLinkedList.wf_back_live {T : Type} {q : SlabLinkedList T} (hwf : q.wfCheck = true)
    {b : Nat} (hb : q.back_id = some b) : q.isLive b = true := by
  obtain ⟨ids, hw, h1, h2, h3⟩ := SlabLinkedList.wfCheck_spec hwf
  have hrel := SlabLinkedList.walkF_sound hw
  have hbmem : b ∈ ids := by
    apply List.mem_of_mem_getLast?
    rw [h3, hb]
    exact rfl
  exact walkRel_live hrel b hbmem

theorem SlabLinkedList.wf_len_zero {T : Type} {q : SlabLinkedList T} (hwf : q.wfCheck = true)
    (hlen : q.len = 0) : q.front_id = none ∧ q.back_id = none := by
  obtain ⟨ids, hw, h1, h2, h3⟩ := SlabLinkedList.wfCheck_spec hwf
  rw [hlen] at h1 hw
  have hids : ids = [] := List.length_eq_zero.mp h1
  subst hids
  constructor
  · cases hf : q.front_id with
    | none => rfl
    | some f =>
      rw [hf] at hw
      simp only [SlabLinkedList.walkF] at hw
      cases hw
  · exact h3.symm

/-- A remove on a handle whose slot is vacant, when front and back avoid that handle, returns absent and leaves the list untouched. -/
theorem SlabLinkedList.remove_stuck {T : Type} {q : SlabLinkedList T} {n : Nat}
    (hdead : q.slab.get n = none)
    (hf : ∀ f, q.front_id = some f → f ≠ n)
    (hb : ∀ b, q.back_id = some b → b ≠ n) :
    q.remove n = (none, q) := by
  unfold SlabLinkedList.remove
  cases hfe : q.front_id with
  | none => cases hbe : q.back_id <;> rfl
  | some f =>
    cases hbe : q.back_id with
    | none => rfl
    | some b =>
      dsimp only
      rw [if_neg (hf f hfe), if_neg (hb b hbe)]
      have htr : Slab.try_remove q.slab n = (none, q.slab) := by
        unfold Slab.try_remove; rw [hdead]
      rw [htr]

/-- After a successful remove, with no intervening operation, a second remove of the same handle returns absent and leaves the list unchanged. -/
theorem SlabLinkedList.remove_twice {T : Type} {l : SlabLinkedList T} {n : Nat} {v : T}
    {l' : SlabLinkedList T} (h : l.remove n = (some v, l')) : l'.remove n = (none, l') := by
  have hdead : l'.slab.get n = none := by
    have := SlabLinkedList.remove_get_none h
    unfold SlabLinkedList.get at this
    cases hg : l'.slab.get n with
    | none => rfl
    | some node => rw [hg] at this; cases this
  unfold SlabLinkedList.remove at h
  cases hfe : l.front_id with
  | none =>
    rw [hfe] at h
    cases l.back_id <;> dsimp only at h <;> cases h
  | some fr =>
    cases hbe : l.back_id with
    | none => rw [hfe, hbe] at h; dsimp only at h; cases h
    | some bk =>
      rw [hfe, hbe] at h
      dsimp only at h
      by_cases hfn : fr = n
      · rw [if_pos hfn] at h
        -- pop_front path
        unfold SlabLinkedList.pop_front at h
        rw [hfe] at h
        cases hbe2 : l.back_id with
        | none => rw [hbe2] at hbe; cases hbe
        | some bk2 =>
          rw [hbe2] at h
          dsimp only at h
          cases hrem : Slab.remove l.slab fr with
          | mk val slab1 =>
            rw [hrem] at h
            cases val with
            | none => dsimp only at h; cases h
            | some fnode =>
              dsimp only at h
              by_cases hfb : fr = bk2
              · rw [if_pos hfb] at h
                injection h with h1 h2
                subst h2
                apply SlabLinkedList.remove_stuck hdead
                · intro f hf2; cases hf2
                · intro b hb2; cases hb2
              · rw [if_neg hfb] at h
                cases hnx : fnode.next_id with
                | none => rw [hnx] at h; dsimp only at h; cases h
                | some nx =>
                  rw [hnx] at h
                  dsimp only at h
                  cases hnxg : slab1.get nx with
                  | none => rw [hnxg] at h; dsimp only at h; cases h
                  | some next_node =>
                    rw [hnxg] at h
                    dsimp only at h
                    injection h with h1 h2
                    subst h2
                    apply SlabLinkedList.remove_stuck hdead
                    · intro f hf2
                      injection hf2 with hf2
                      subst hf2
                      have hslab1 : slab1 = (l.slab.try_remove fr).2 := by
                        have := congrArg Prod.snd hrem
                        simpa [Slab.remove] using this.symm
                      have hvac : slab1.get fr = none := by
                        rw [hslab1]; exact Slab.get_try_remove_self l.slab fr
                      intro he
                      rw [he, ← hfn, hvac] at hnxg
                      cases hnxg
                    · intro b hb2
                      injection hb2 with hb2
                      subst hb2
                      subst hfn
                      intro he
                      exact hfb (he ▸ rfl)
      · rw [if_neg hfn] at h
        by_cases hbn : bk = n
        · rw [if_pos hbn] at h
          -- pop_back path
          unfold SlabLinkedList.pop_back at h
          rw [hbe] at h
          cases hfe2 : l.front_id with
          | none => rw [hfe2] at hfe; cases hfe
          | some fr2 =>
            rw [hfe2] at h
            dsimp only at h
            cases hrem : Slab.remove l.slab bk with
            | mk val slab1 =>
              rw [hrem] at h
              cases val with
              | none => dsimp only at h; cases h
              | some bnode =>
                dsimp only at h
                by_cases hfb : fr2 = bk
                · rw [if_pos hfb] at h
                  injection h with h1 h2
                  subst h2
                  apply SlabLinkedList.remove_stuck hdead
                  · intro f hf2; cases hf2
                  · intro b hb2; cases hb2
                · rw [if_neg hfb] at h
                  cases hpv : bnode.prev_id with
                  | none => rw [hpv] at h; dsimp only at h; cases h
                  | some pv =>
                    rw [hpv] at h
                    dsimp only at h
                    cases hpvg : slab1.get pv with
                    | none => rw [hpvg] at h; dsimp only at h; cases h
                    | some prev_node =>
                      rw [hpvg] at h
                      dsimp only at h
                      injection h with h1 h2
                      subst h2
                      apply SlabLinkedList.remove_stuck hdead
                      · intro f hf2
                        injection hf2 with hf2
                        subst hf2
                        have hfr2 : fr2 = fr := by
                          rw [hfe2] at hfe; injection hfe
                        subst hfr2
                        exact hfn
                      · intro b hb2
                        injection hb2 with hb2
                        subst hb2
                        have hslab1 : slab1 = (l.slab.try_remove bk).2 := by
                          have := congrArg Prod.snd hrem
                          simpa [Slab.remove] using this.symm
                        have hvac : slab1.get bk = none := by
                          rw [hslab1]; exact Slab.get_try_remove_self l.slab bk
                        intro he
                        rw [he, ← hbn, hvac] at hpvg
                        cases hpvg
        · rw [if_neg hbn] at h
          -- middle path
          cases htr : Slab.try_remove l.slab n with
          | mk val slab1 =>
            rw [htr] at h
            cases val with
            | none => dsimp only at h; cases h
            | some rnode =>
              dsimp only at h
              cases hnx : rnode.next_id with
              | none => rw [hnx] at h; dsimp only at h; cases h
              | some nx =>
                rw [hnx] at h
                cases hpv : rnode.prev_id with
                | none => rw [hpv] at h; dsimp only at h; cases h
                | some pv =>
                  rw [hpv] at h
                  dsimp only at h
                  cases hpvg : slab1.get pv with
                  | none => rw [hpvg] at h; dsimp only at h; cases h
                  | some prev_node =>
                    rw [hpvg] at h
                    cases hnxg : slab1.get nx with
                    | none => rw [hnxg] at h; dsimp only at h; cases h
                    | some next_node =>
                      rw [hnxg] at h
                      dsimp only at h
                      injection h with h1 h2
                      subst h2
                      apply SlabLinkedList.remove_stuck hdead
                      · intro f hf2
                        injection hf2 with hf2
                        subst hf2
                        exact hfn
                      · intro b hb2
                        injection hb2 with hb2
                        subst hb2
                        exact hbn

/-- C9: for every well-formed queue state, remove of a handle that is not currently live returns absent with the queue unchanged; pop_front and pop_back on an empty queue return absent with the queue unchanged; and after a successful remove, with no intervening insertion, a second remove of the same handle returns absent and leaves the queue unchanged. -/
theorem c9_remove_and_pop_on_dead_handles {T : Type} (q : SlabLinkedList T) (n : Nat)
    (hwf : q.wfCheck = true) :
    (q.isLive n = false → q.remove n = (none, q)) ∧
    (q.is_empty = true → q.pop_front = (none, q) ∧ q.pop_back = (none, q)) ∧
    (∀ (v : T) (q' : SlabLinkedList T), q.remove n = (some v, q') → q'.remove n = (none, q')) := by
  refine ⟨?_, ?_, ?_⟩
  · intro hdead
    have hget : q.slab.get n = none := by
      unfold SlabLinkedList.isLive at hdead
      cases hg : q.slab.get n with
      | none => rfl
      | some x => rw [hg] at hdead; cases hdead
    apply SlabLinkedList.remove_stuck hget
    · intro f hf hfn
      subst hfn
      have hlive := SlabLinkedList.wf_front_live hwf hf
      unfold SlabLinkedList.isLive at hlive
      rw [hget] at hlive
      cases hlive
    · intro b hb hbn
      subst hbn
      have hlive := SlabLinkedList.wf_back_live hwf hb
      unfold SlabLinkedList.isLive at hlive
      rw [hget] at hlive
      cases hlive
  · intro hempty
    have hlen : q.len = 0 := by
      unfold SlabLinkedList.is_empty at hempty
      simpa using hempty
    obtain ⟨hf, hb⟩ := SlabLinkedList.wf_len_zero hwf hlen
    constructor
    · unfold SlabLinkedList.pop_front
      rw [hf, hb]
    · unfold SlabLinkedList.pop_back
      rw [hf, hb]
  · exact fun v q' h => SlabLinkedList.remove_twice h

/-- C9 witness: the theorem instantiated on a concrete two-element queue with the dead handle 5, on the empty queue for the pops, and on a one-element queue for the double remove. -/
theorem c9_remove_and_pop_witness :
    (((SlabLinkedList.new.push_back (1 : Nat)).2.push_back 2).2.wfCheck = true ∧
     ((SlabLinkedList.new.push_back (1 : Nat)).2.push_back 2).2.isLive 5 = false ∧
     ((SlabLinkedList.new.push_back (1 : Nat)).2.push_back 2).2.remove 5 =
       (none, ((SlabLinkedList.new.push_back (1 : Nat)).2.push_back 2).2)) ∧
    ((SlabLinkedList.new : SlabLinkedList Nat).is_empty = true ∧
     (SlabLinkedList.new : SlabLinkedList Nat).pop_front = (none, SlabLinkedList.new) ∧
     (SlabLinkedList.new : SlabLinkedList Nat).pop_back = (none, SlabLinkedList.new)) ∧
    ((SlabLinkedList.new.push_back (1 : Nat)).2.remove 0 =
       (some 1, ((SlabLinkedList.new.push_back (1 : Nat)).2.remove 0).2) ∧
     (((SlabLinkedList.new.push_back (1 : Nat)).2.remove 0).2).remove 0 =
       (none, ((SlabLinkedList.new.push_back (1 : Nat)).2.remove 0).2)) := by
  refine ⟨⟨rfl, rfl, ?_⟩, ⟨rfl, ?_, ?_⟩, ⟨rfl, ?_⟩⟩
  · exact (c9_remove_and_pop_on_dead_handles
      ((SlabLinkedList.new.push_back (1 : Nat)).2.push_back 2).2 5 rfl).1 rfl
  · exact ((c9_remove_and_pop_on_dead_handles (SlabLinkedList.new : SlabLinkedList Nat) 0 rfl).2.1 rfl).1
  · exact ((c9_remove_and_pop_on_dead_handles (SlabLinkedList.new : SlabLinkedList Nat) 0 rfl).2.1 rfl).2
  · exact (c9_remove_and_pop_on_dead_handles
      (SlabLinkedList.new.push_back (1 : Nat)).2 0 rfl).2.2 1
      ((SlabLinkedList.new.push_back (1 : Nat)).2.remove 0).2 rfl

/-! ### Conservation of quantity through the matching walk (claim C7) -/

theorem SlabLinkedList.iterFrom_mem {T : Type} {s : Slab (SlabNode T)} :
    ∀ {fuel : Nat} {cur stop : Option Nat} {i : Nat} {v : T},
      (i, v) ∈ SlabLinkedList.iterFrom s fuel cur stop →
      ∃ nd, s.get i = some nd ∧ nd.value = v := by
  intro fuel
  induction fuel with
  | zero => intro cur stop i v h; simp [SlabLinkedList.iterFrom] at h
  | succ fuel ih =>
    intro cur stop i v h
    cases cur with
    | none => simp [SlabLinkedList.iterFrom] at h
    | some c =>
      cases stop with
      | none => simp [SlabLinkedList.iterFrom] at h
      | some stop_id =>
        simp only [SlabLinkedList.iterFrom] at h
        cases hg : s.get c with
        | none => rw [hg] at h; simp at h
        | some node =>
          rw [hg] at h
          dsimp only at h
          by_cases hcs : c = stop_id
          · rw [if_pos hcs] at h
            simp at h
            obtain ⟨rfl, rfl⟩ := h
            exact ⟨node, hg, rfl⟩
          · rw [if_neg hcs] at h
            rcases List.mem_cons.mp h with heq | h
            · injection heq with e1 e2
              subst e1
              subst e2
              exact ⟨node, hg, rfl⟩
            · exact ih h

theorem PriceTree.iterListAux_mem {s : Slab PriceNode} :
    ∀ {pairs : List (Nat × Nat)} {nid : Nat} {node : PriceNode},
      (nid, node) ∈ PriceTree.iterListAux s pairs → s.get nid = some node := by
  intro pairs
  induction pairs with
  | nil => intro nid node h; simp [PriceTree.iterListAux] at h
  | cons p rest ih =>
    intro nid node h
    obtain ⟨k, pid⟩ := p
    simp only [PriceTree.iterListAux] at h
    cases hg : s.get pid with
    | none => rw [hg] at h; simp at h
    | some nd =>
      rw [hg] at h
      rcases List.mem_cons.mp h with heq | h
      · injection heq with e1 e2
        subst e1
        subst e2
        exact hg
      · exact ih h

theorem matchOrdersInLevel_conservation (tree : PriceTree) {pnid : Nat} :
    ∀ {orders : List (Nat × Order)} {r : Nat} {f : List (Uuid × OrderKey)}
      {r' : Nat} {f' : List (Uuid × OrderKey)} {pm' : Option PartMatch} {done : Bool},
      OrderBook.matchOrdersInLevel pnid orders r f none = (r', f', pm', done) →
      (∀ p ∈ orders, tree.get_order ⟨pnid, p.1⟩ = some p.2) →
      ((f'.map (keyQty tree)).sum + partQty tree pm' + r' = (f.map (keyQty tree)).sum + r) ∧
      (done = false → pm' = none) := by
  intro orders
  induction orders with
  | nil =>
    intro r f r' f' pm' done h hlk
    simp only [OrderBook.matchOrdersInLevel] at h
    cases h
    exact ⟨by simp [partQty], fun _ => rfl⟩
  | cons p rest ih =>
    intro r f r' f' pm' done h hlk
    obtain ⟨llid, ord⟩ := p
    have hq : keyQty tree (ord.id, OrderKey.mk pnid llid) = ord.quantity := by
      unfold keyQty
      rw [hlk (llid, ord) (List.mem_cons_self _ _)]
    simp only [OrderBook.matchOrdersInLevel] at h
    by_cases hle : ord.quantity ≤ r
    · rw [if_pos hle] at h
      by_cases hz : r - ord.quantity = 0
      · rw [if_pos hz] at h
        cases h
        refine ⟨?_, fun hff => by cases hff⟩
        simp only [List.map_append, List.sum_append, List.map_cons, List.map_nil,
          List.sum_cons, List.sum_nil, partQty]
        rw [hq]
        omega
      · rw [if_neg hz] at h
        have hrec := ih h (fun p hp => hlk p (List.mem_cons_of_mem _ hp))
        refine ⟨?_, hrec.2⟩
        rw [hrec.1]
        simp only [List.map_append, List.sum_append, List.map_cons, List.map_nil,
          List.sum_cons, List.sum_nil]
        rw [hq]
        omega
    · rw [if_neg hle] at h
      cases h
      refine ⟨?_, fun hff => by cases hff⟩
      simp only [partQty]
      unfold keyQty
      rw [hlk (llid, ord) (List.mem_cons_self _ _)]
      dsimp only
      omega

theorem walkLevels_conservation (tree : PriceTree) {acc : Nat → Bool} :
    ∀ {levels : List (Nat × PriceNode)} {r : Nat} {f : List (Uuid × OrderKey)} {mo : MatchOutcome},
      OrderBook.walkLevels acc levels r f none = mo →
      (∀ p ∈ levels, tree.slab.get p.1 = some p.2) →
      (mo.full_order.map (keyQty tree)).sum + partQty tree mo.part_order + mo.remaining_quantity
        = (f.map (keyQty tree)).sum + r := by
  intro levels
  induction levels with
  | nil =>
    intro r f mo h hcons
    simp only [OrderBook.walkLevels] at h
    cases h
    simp [partQty]
  | cons p rest ih =>
    intro r f mo h hcons
    obtain ⟨pnid, node⟩ := p
    simp only [OrderBook.walkLevels] at h
    by_cases hacc : acc node.price = true
    · rw [if_pos hacc] at h
      cases htup : OrderBook.matchOrdersInLevel pnid node.iterList r f none with
      | mk r1 tup1 =>
        cases tup1 with
        | mk f1 tup2 =>
          cases tup2 with
          | mk pm1 done =>
            rw [htup] at h
            dsimp only at h
            have hlk : ∀ q ∈ node.iterList, tree.get_order ⟨pnid, q.1⟩ = some q.2 := by
              intro q hq
              obtain ⟨llid, ord⟩ := q
              unfold PriceTree.get_order
              rw [hcons (pnid, node) (List.mem_cons_self _ _)]
              dsimp only
              unfold PriceNode.iterList SlabLinkedList.iterList at hq
              obtain ⟨nd, hnd, hv⟩ := SlabLinkedList.iterFrom_mem hq
              unfold SlabLinkedList.get
              simp [hnd, hv]
            have hF := matchOrdersInLevel_conservation tree htup hlk
            cases done with
            | true =>
              rw [if_pos rfl] at h
              cases h
              exact hF.1
            | false =>
              rw [if_neg (by simp)] at h
              have hpm1 : pm1 = none := hF.2 rfl
              subst hpm1
              have hrec := ih h (fun p hp => hcons p (List.mem_cons_of_mem _ hp))
              rw [hrec]
              have := hF.1
              simp only [partQty] at this
              omega
    · rw [if_neg hacc] at h
      cases h
      simp [partQty]

theorem fullFills_sum {tree : PriceTree} :
    ∀ {l : List (Uuid × OrderKey)} {fs : List Fill},
      fullFills tree l = some fs → (fs.map Fill.quantity).sum = (l.map (keyQty tree)).sum := by
  intro l
  induction l with
  | nil => intro fs h; cases h; rfl
  | cons p rest ih =>
    intro fs h
    obtain ⟨pid, key⟩ := p
    simp only [fullFills] at h
    cases hg : tree.get_order key with
    | none => rw [hg] at h; cases h
    | some o =>
      rw [hg] at h
      dsimp only at h
      cases hrec : fullFills tree rest with
      | none => rw [hrec] at h; cases h
      | some fs1 =>
        rw [hrec] at h
        dsimp only [Option.map] at h
        cases h
        simp only [List.map_cons, List.sum_cons]
        rw [ih hrec]
        unfold keyQty
        rw [hg]

theorem partFills_sum {tree : PriceTree} :
    ∀ {pm : Option PartMatch} {ps : List Fill},
      partFills tree pm = some ps → (ps.map Fill.quantity).sum = partQty tree pm := by
  intro pm ps h
  cases pm with
  | none => cases h; rfl
  | some p =>
    simp only [partFills] at h
    cases hg : tree.get_order p.order_key with
    | none => rw [hg] at h; cases h
    | some o =>
      rw [hg] at h
      cases h
      simp only [List.map_cons, List.map_nil, List.sum_cons, List.sum_nil, partQty]
      unfold keyQty
      rw [hg]
      dsimp only
      omega

/-- C7: for an accepted place_order call (positive price and quantity), when the clearing-house fill trace of the matching outcome resolves without panicking, the sum of its fill quantities (full matches plus the at-most-one part match) plus the quantity with which the aggressor rests on its own ladder (zero when fully filled) equals the original incoming quantity. -/
theorem c7_conservation_of_quantity (b : OrderBook) (price quantity : Nat) (t : OrderType)
    (hp : 0 < price) (hq : 0 < quantity) (fl : List Fill)
    (hfl : MatchOutcome.fillsOf (b.oppositeTree t)
        (b.find_matching_orders (Order.new b.next_id price quantity) t) = some fl) :
    (fl.map Fill.quantity).sum +
      restedQuantity (b.find_matching_orders (Order.new b.next_id price quantity) t) = quantity := by
  have hrest : restedQuantity (b.find_matching_orders (Order.new b.next_id price quantity) t) =
      (b.find_matching_orders (Order.new b.next_id price quantity) t).remaining_quantity := by
    unfold restedQuantity
    split <;> omega
  have hwalk : ((b.find_matching_orders (Order.new b.next_id price quantity) t).full_order.map
        (keyQty (b.oppositeTree t))).sum +
      partQty (b.oppositeTree t)
        (b.find_matching_orders (Order.new b.next_id price quantity) t).part_order +
      (b.find_matching_orders (Order.new b.next_id price quantity) t).remaining_quantity
        = quantity := by
    cases t with
    | Bid =>
      have hcons : ∀ p ∈ (b.ask_tree).iterListBack, b.ask_tree.slab.get p.1 = some p.2 := by
        intro p hp
        obtain ⟨nid, nd⟩ := p
        exact PriceTree.iterListAux_mem hp
      have h0 : OrderBook.walkLevels
          (fun p => p ≤ (Order.new b.next_id price quantity).price) b.ask_tree.iterListBack
          (Order.new b.next_id price quantity).quantity [] none =
          b.find_matching_orders (Order.new b.next_id price quantity) OrderType.Bid := rfl
      simpa [OrderBook.oppositeTree] using walkLevels_conservation b.ask_tree h0 hcons
    | Ask =>
      have hcons : ∀ p ∈ (b.bid_tree).iterList, b.bid_tree.slab.get p.1 = some p.2 := by
        intro p hp
        obtain ⟨nid, nd⟩ := p
        exact PriceTree.iterListAux_mem hp
      have h0 : OrderBook.walkLevels
          (fun p => (Order.new b.next_id price quantity).price ≤ p) b.bid_tree.iterList
          (Order.new b.next_id price quantity).quantity [] none =
          b.find_matching_orders (Order.new b.next_id price quantity) OrderType.Ask := rfl
      simpa [OrderBook.oppositeTree] using walkLevels_conservation b.bid_tree h0 hcons
  unfold MatchOutcome.fillsOf at hfl
  cases hff : fullFills (b.oppositeTree t)
      (b.find_matching_orders (Order.new b.next_id price quantity) t).full_order with
  | none => rw [hff] at hfl; cases hfl
  | some ff =>
    rw [hff] at hfl
    cases hpf : partFills (b.oppositeTree t)
        (b.find_matching_orders (Order.new b.next_id price quantity) t).part_order with
    | none => rw [hpf] at hfl; cases hfl
    | some pf =>
      rw [hpf] at hfl
      dsimp only at hfl
      cases hfl
      rw [List.map_append, List.sum_append, fullFills_sum hff, partFills_sum hpf, hrest]
      omega

/-- C7 witness: placing Bid 100 quantity 4 against a book holding Ask 100 quantity 10 produces the single fill of 4 at 100 and rests nothing, and 4 + 0 = 4. -/
theorem c7_conservation_witness :
    (0:Nat) < 100 ∧ (0:Nat) < 4 ∧
    MatchOutcome.fillsOf
      ((applyOps [BookOp.place 100 10 OrderType.Ask] OrderBook.new).oppositeTree OrderType.Bid)
      ((applyOps [BookOp.place 100 10 OrderType.Ask] OrderBook.new).find_matching_orders
        (Order.new (applyOps [BookOp.place 100 10 OrderType.Ask] OrderBook.new).next_id 100 4)
        OrderType.Bid) = some [⟨0, 4, 100⟩] ∧
    ([(⟨0, 4, 100⟩ : Fill)].map Fill.quantity).sum +
      restedQuantity ((applyOps [BookOp.place 100 10 OrderType.Ask] OrderBook.new).find_matching_orders
        (Order.new (applyOps [BookOp.place 100 10 OrderType.Ask] OrderBook.new).next_id 100 4)
        OrderType.Bid) = 4 := by
  refine ⟨by decide, by decide, rfl, ?_⟩
  exact c7_conservation_of_quantity (applyOps [BookOp.place 100 10 OrderType.Ask] OrderBook.new)
    100 4 OrderType.Bid (by decide) (by decide) [⟨0, 4, 100⟩] rfl

/-! ### L2 snapshot ordering (claim C6, amended) -/

theorem PriceTree.iterListAux_prices {s : Slab PriceNode} :
    ∀ {pairs : List (Nat × Nat)},
      (∀ p ∈ pairs, (s.get p.2).map PriceNode.price = some p.1) →
      (PriceTree.iterListAux s pairs).map (fun q => q.2.price) = pairs.map Prod.fst := by
  intro pairs
  induction pairs with
  | nil => intro h; rfl
  | cons p rest ih =>
    intro h
    obtain ⟨k, nid⟩ := p
    have hp := h (k, nid) (List.mem_cons_self _ _)
    cases hg : s.get nid with
    | none => rw [hg] at hp; cases hp
    | some node =>
      rw [hg] at hp
      injection hp with hp
      simp only [PriceTree.iterListAux]
      rw [hg]
      simp only [List.map_cons]
      rw [ih (fun q hq => h q (List.mem_cons_of_mem _ hq))]
      rw [hp]

/-- C6 (amended): for every book whose ladders are well-sorted, the L2 snapshot lists BOTH sides in ascending price order (prices strictly increasing: best bid comes last on the bid side, best ask first on the ask side), with one record per price-node carrying that node's price, total_quantity and num_orders. -/
theorem c6_amended_l2_both_sides_ascending (b : OrderBook)
    (hb : b.bid_tree.wfSorted) (ha : b.ask_tree.wfSorted) :
    List.Pairwise (· < ·) ((b.view_book_l2).bid.map L2Entry.price) ∧
    List.Pairwise (· < ·) ((b.view_book_l2).ask.map L2Entry.price) ∧
    (b.view_book_l2).bid =
      b.bid_tree.iterList.map (fun p => ⟨p.2.price, p.2.total_quantity, p.2.num_orders⟩) ∧
    (b.view_book_l2).ask =
      b.ask_tree.iterList.map (fun p => ⟨p.2.price, p.2.total_quantity, p.2.num_orders⟩) ∧
    (b.view_book_l2).bid.length = b.bid_tree.tree.pairs.length ∧
    (b.view_book_l2).ask.length = b.ask_tree.tree.pairs.length := by
  have hbid : ((b.view_book_l2).bid.map L2Entry.price) = b.bid_tree.tree.pairs.map Prod.fst := by
    show ((b.bid_tree.iterList.map
        (fun p => L2Entry.mk p.2.price p.2.total_quantity p.2.num_orders)).map L2Entry.price)
      = b.bid_tree.tree.pairs.map Prod.fst
    rw [List.map_map]
    exact PriceTree.iterListAux_prices hb.2
  have hask : ((b.view_book_l2).ask.map L2Entry.price) = b.ask_tree.tree.pairs.map Prod.fst := by
    show ((b.ask_tree.iterList.map
        (fun p => L2Entry.mk p.2.price p.2.total_quantity p.2.num_orders)).map L2Entry.price)
      = b.ask_tree.tree.pairs.map Prod.fst
    rw [List.map_map]
    exact PriceTree.iterListAux_prices ha.2
  refine ⟨?_, ?_, rfl, rfl, ?_, ?_⟩
  · rw [hbid]; exact hb.1
  · rw [hask]; exact ha.1
  · have := congrArg List.length hbid
    simpa using this
  · have := congrArg List.length hask
    simpa using this

/-- C6 amended witness: a book with two bid levels and two ask levels, well-sorted, whose snapshot is ascending on both sides. -/
theorem c6_amended_witness :
    (applyOps [BookOp.place 100 5 OrderType.Bid, BookOp.place 101 5 OrderType.Bid,
      BookOp.place 103 5 OrderType.Ask, BookOp.place 105 5 OrderType.Ask] OrderBook.new).bid_tree.wfSorted ∧
    List.Pairwise (· < ·)
      (((applyOps [BookOp.place 100 5 OrderType.Bid, BookOp.place 101 5 OrderType.Bid,
        BookOp.place 103 5 OrderType.Ask, BookOp.place 105 5 OrderType.Ask] OrderBook.new).view_book_l2).bid.map
        L2Entry.price) := by
  refine ⟨by decide, ?_⟩
  exact (c6_amended_l2_both_sides_ascending
    (applyOps [BookOp.place 100 5 OrderType.Bid, BookOp.place 101 5 OrderType.Bid,
      BookOp.place 103 5 OrderType.Ask, BookOp.place 105 5 OrderType.Ask] OrderBook.new)
    (by decide) (by decide)).1

/-! ### Membership lemmas for the arena, the queue, and the map models (claim C10) -/

theorem Slab.mem_values_of_get {T : Type} {s : Slab T} {k : Nat} {v : T} (h : s.get k = some v) :
    v ∈ s.values := by
  unfold Slab.get at h
  unfold Slab.values
  rw [List.mem_filterMap]
  cases hk : s.entries[k]? with
  | none => rw [hk] at h; cases h
  | some a =>
    rw [hk] at h
    cases a with
    | none => cases h
    | some w =>
      injection h with h
      subst h
      exact ⟨some w, List.getElem?_mem hk, rfl⟩

theorem Slab.mem_values_set {T : Type} {s : Slab T} {k : Nat} {v x : T}
    (h : x ∈ (s.get_mut_set k v).values) : x = v ∨ x ∈ s.values := by
  unfold Slab.values Slab.get_mut_set at h
  unfold Slab.values
  rw [List.mem_filterMap] at h
  obtain ⟨a, ha, hax⟩ := h
  rcases List.mem_or_eq_of_mem_set ha with ha2 | ha2
  · right; rw [List.mem_filterMap]; exact ⟨a, ha2, hax⟩
  · left
    subst ha2
    injection hax with hax
    exact hax.symm

theorem Slab.mem_values_try_remove {T : Type} {s : Slab T} {k : Nat} {x : T}
    (h : x ∈ ((s.try_remove k).2).values) : x ∈ s.values := by
  unfold Slab.try_remove at h
  cases hg : s.get k with
  | none => rw [hg] at h; exact h
  | some v =>
    rw [hg] at h
    unfold Slab.values at h
    unfold Slab.values
    rw [List.mem_filterMap] at h
    obtain ⟨a, ha, hax⟩ := h
    rcases List.mem_or_eq_of_mem_set ha with ha2 | ha2
    · rw [List.mem_filterMap]; exact ⟨a, ha2, hax⟩
    · subst ha2; cases hax

theorem Slab.mem_values_insert {T : Type} {s : Slab T} {v x : T}
    (h : x ∈ ((s.insert v).2).values) : x = v ∨ x ∈ s.values := by
  unfold Slab.insert at h
  dsimp only at h
  by_cases hlt : s.firstVacant < s.entries.length
  · rw [if_pos hlt] at h
    exact Slab.mem_values_set h
  · rw [if_neg hlt] at h
    unfold Slab.values at h
    unfold Slab.values
    rw [List.mem_filterMap] at h
    obtain ⟨a, ha, hax⟩ := h
    rcases List.mem_append.mp ha with ha2 | ha2
    · right; rw [List.mem_filterMap]; exact ⟨a, ha2, hax⟩
    · left
      rcases List.mem_singleton.mp ha2 with rfl
      injection hax with hax
      exact hax.symm

theorem mapGet_some_mem_keys {B : Type} {m : List (Nat × B)} {k : Nat} {v : B}
    (h : mapGet m k = some v) : k ∈ m.map Prod.fst := by
  unfold mapGet at h
  cases hf : m.find? (fun p => decide (p.1 = k)) with
  | none => rw [hf] at h; cases h
  | some p =>
    have hm := List.mem_of_find?_eq_some hf
    have hp := List.find?_some hf
    simp at hp
    rw [List.mem_map]
    exact ⟨p, hm, hp⟩

theorem mem_keys_mapRemove {B : Type} {m : List (Nat × B)} {x k : Nat}
    (h : k ∈ (mapRemove m x).map Prod.fst) : k ∈ m.map Prod.fst ∧ k ≠ x := by
  unfold mapRemove at h
  rw [List.mem_map] at h
  obtain ⟨p, hp, rfl⟩ := h
  have := List.mem_filter.mp hp
  refine ⟨List.mem_map.mpr ⟨p, this.1, rfl⟩, ?_⟩
  have h2 := this.2
  simp at h2
  exact h2

theorem mem_keys_mapInsert {B : Type} {m : List (Nat × B)} {x k : Nat} {v : B}
    (h : k ∈ (mapInsert m x v).map Prod.fst) : k = x ∨ k ∈ m.map Prod.fst := by
  unfold mapInsert at h
  rw [List.map_cons] at h
  rcases List.mem_cons.mp h with h | h
  · exact Or.inl h
  · right
    rw [List.mem_map] at h
    obtain ⟨p, hp, rfl⟩ := h
    exact List.mem_map.mpr ⟨p, (List.mem_filter.mp hp).1, rfl⟩

theorem mem_setInsert_iff {s : List Nat} {x k : Nat} :
    k ∈ setInsert s x ↔ k = x ∨ k ∈ s := by
  unfold setInsert
  by_cases h : s.contains x
  · have hx : x ∈ s := by simpa using h
    rw [if_pos h]
    constructor
    · exact Or.inr
    · rintro (rfl | hk)
      · exact hx
      · exact hk
  · rw [if_neg h]
    exact List.mem_cons

theorem SlabLinkedList.pop_front_values {T : Type} {l : SlabLinkedList T} {res : Option T}
    {l' : SlabLinkedList T} (h : l.pop_front = (res, l')) :
    ∀ x ∈ l'.slab.values, ∃ y ∈ l.slab.values, x.value = y.value := by
  unfold SlabLinkedList.pop_front at h
  cases hf : l.front_id with
  | none =>
    rw [hf] at h
    cases hb : l.back_id <;> rw [hb] at h <;> dsimp only at h <;>
      (injection h with h1 h2; subst h2; exact fun x hx => ⟨x, hx, rfl⟩)
  | some fr =>
    cases hb : l.back_id with
    | none =>
      rw [hf, hb] at h
      dsimp only at h
      injection h with h1 h2
      subst h2
      exact fun x hx => ⟨x, hx, rfl⟩
    | some bk =>
      rw [hf, hb] at h
      dsimp only at h
      cases hrem : Slab.remove l.slab fr with
      | mk val slab1 =>
        rw [hrem] at h
        have hslab1 : slab1 = (l.slab.try_remove fr).2 := by
          have := congrArg Prod.snd hrem
          simpa [Slab.remove] using this.symm
        cases val with
        | none =>
          dsimp only at h
          injection h with h1 h2
          subst h2
          exact fun x hx => ⟨x, hx, rfl⟩
        | some fnode =>
          dsimp only at h
          by_cases hfb : fr = bk
          · rw [if_pos hfb] at h
            injection h with h1 h2
            subst h2
            intro x hx
            exact ⟨x, Slab.mem_values_try_remove (hslab1 ▸ hx), rfl⟩
          · rw [if_neg hfb] at h
            cases hnx : fnode.next_id with
            | none =>
              rw [hnx] at h
              dsimp only at h
              injection h with h1 h2
              subst h2
              exact fun x hx => ⟨x, hx, rfl⟩
            | some nx =>
              rw [hnx] at h
              dsimp only at h
              cases hnxg : slab1.get nx with
              | none =>
                rw [hnxg] at h
                dsimp only at h
                injection h with h1 h2
                subst h2
                exact fun x hx => ⟨x, hx, rfl⟩
              | some next_node =>
                rw [hnxg] at h
                dsimp only at h
                injection h with h1 h2
                subst h2
                intro x hx
                rcases Slab.mem_values_set hx with rfl | hx2
                · exact ⟨next_node,
                    Slab.mem_values_try_remove (hslab1 ▸ Slab.mem_values_of_get hnxg), rfl⟩
                · exact ⟨x, Slab.mem_values_try_remove (hslab1 ▸ hx2), rfl⟩

theorem SlabLinkedList.pop_back_values {T : Type} {l : SlabLinkedList T} {res : Option T}
    {l' : SlabLinkedList T} (h : l.pop_back = (res, l')) :
    ∀ x ∈ l'.slab.values, ∃ y ∈ l.slab.values, x.value = y.value := by
  unfold SlabLinkedList.pop_back at h
  cases hf : l.front_id with
  | none =>
    rw [hf] at h
    cases hb : l.back_id <;> rw [hb] at h <;> dsimp only at h <;>
      (injection h with h1 h2; subst h2; exact fun x hx => ⟨x, hx, rfl⟩)
  | some fr =>
    cases hb : l.back_id with
    | none =>
      rw [hf, hb] at h
      dsimp only at h
      injection h with h1 h2
      subst h2
      exact fun x hx => ⟨x, hx, rfl⟩
    | some bk =>
      rw [hf, hb] at h
      dsimp only at h
      cases hrem : Slab.remove l.slab bk with
      | mk val slab1 =>
        rw [hrem] at h
        have hslab1 : slab1 = (l.slab.try_remove bk).2 := by
          have := congrArg Prod.snd hrem
          simpa [Slab.remove] using this.symm
        cases val with
        | none =>
          dsimp only at h
          injection h with h1 h2
          subst h2
          exact fun x hx => ⟨x, hx, rfl⟩
        | some bnode =>
          dsimp only at h
          by_cases hfb : fr = bk
          · rw [if_pos hfb] at h
            injection h with h1 h2
            subst h2
            intro x hx
            exact ⟨x, Slab.mem_values_try_remove (hslab1 ▸ hx), rfl⟩
          · rw [if_neg hfb] at h
            cases hpv : bnode.prev_id with
            | none =>
              rw [hpv] at h
              dsimp only at h
              injection h with h1 h2
              subst h2
              exact fun x hx => ⟨x, hx, rfl⟩
            | some pv =>
              rw [hpv] at h
              dsimp only at h
              cases hpvg : slab1.get pv with
              | none =>
                rw [hpvg] at h
                dsimp only at h
                injection h with h1 h2
                subst h2
                exact fun x hx => ⟨x, hx, rfl⟩
              | some prev_node =>
                rw [hpvg] at h
                dsimp only at h
                injection h with h1 h2
                subst h2
                intro x hx
                rcases Slab.mem_values_set hx with rfl | hx2
                · exact ⟨prev_node,
                    Slab.mem_values_try_remove (hslab1 ▸ Slab.mem_values_of_get hpvg), rfl⟩
                · exact ⟨x, Slab.mem_values_try_remove (hslab1 ▸ hx2), rfl⟩

theorem SlabLinkedList.remove_values {T : Type} {l : SlabLinkedList T} {n : Nat} {res : Option T}
    {l' : SlabLinkedList T} (h : l.remove n = (res, l')) :
    ∀ x ∈ l'.slab.values, ∃ y ∈ l.slab.values, x.value = y.value := by
  unfold SlabLinkedList.remove at h
  cases hf : l.front_id with
  | none =>
    rw [hf] at h
    cases l.back_id <;> dsimp only at h <;>
      (injection h with h1 h2; subst h2; exact fun x hx => ⟨x, hx, rfl⟩)
  | some fr =>
    cases hb : l.back_id with
    | none =>
      rw [hf, hb] at h
      dsimp only at h
      injection h with h1 h2
      subst h2
      exact fun x hx => ⟨x, hx, rfl⟩
    | some bk =>
      rw [hf, hb] at h
      dsimp only at h
      by_cases hfn : fr = n
      · rw [if_pos hfn] at h
        exact SlabLinkedList.pop_front_values h
      · rw [if_neg hfn] at h
        by_cases hbn : bk = n
        · rw [if_pos hbn] at h
          exact SlabLinkedList.pop_back_values h
        · rw [if_neg hbn] at h
          cases htr : Slab.try_remove l.slab n with
          | mk val slab1 =>
            rw [htr] at h
            have hslab1 : slab1 = (l.slab.try_remove n).2 := (congrArg Prod.snd htr).symm
            cases val with
            | none =>
              dsimp only at h
              injection h with h1 h2
              subst h2
              exact fun x hx => ⟨x, hx, rfl⟩
            | some rnode =>
              dsimp only at h
              cases hnx : rnode.next_id with
              | none =>
                rw [hnx] at h
                dsimp only at h
                injection h with h1 h2
                subst h2
                exact fun x hx => ⟨x, hx, rfl⟩
              | some nx =>
                rw [hnx] at h
                cases hpv : rnode.prev_id with
                | none =>
                  rw [hpv] at h
                  dsimp only at h
                  injection h with h1 h2
                  subst h2
                  exact fun x hx => ⟨x, hx, rfl⟩
                | some pv =>
                  rw [hpv] at h
                  dsimp only at h
                  cases hpvg : slab1.get pv with
                  | none =>
                    rw [hpvg] at h
                    dsimp only at h
                    injection h with h1 h2
                    subst h2
                    exact fun x hx => ⟨x, hx, rfl⟩
                  | some prev_node =>
                    rw [hpvg] at h
                    cases hnxg : slab1.get nx with
                    | none =>
                      rw [hnxg] at h
                      dsimp only at h
                      injection h with h1 h2
                      subst h2
                      exact fun x hx => ⟨x, hx, rfl⟩
                    | some next_node =>
                      rw [hnxg] at h
                      dsimp only at h
                      injection h with h1 h2
                      subst h2
                      intro x hx
                      rcases Slab.mem_values_set hx with rfl | hx2
                      · exact ⟨next_node,
                          Slab.mem_values_try_remove (hslab1 ▸ Slab.mem_values_of_get hnxg), rfl⟩
                      · rcases Slab.mem_values_set hx2 with rfl | hx3
                        · exact ⟨prev_node,
                            Slab.mem_values_try_remove (hslab1 ▸ Slab.mem_values_of_get hpvg), rfl⟩
                        · exact ⟨x, Slab.mem_values_try_remove (hslab1 ▸ hx3), rfl⟩

theorem SlabLinkedList.push_back_values {T : Type} {l : SlabLinkedList T} {v : T} :
    ∀ x ∈ (l.push_back v).2.slab.values, x.value = v ∨ ∃ y ∈ l.slab.values, x.value = y.value := by
  intro x hx
  unfold SlabLinkedList.push_back at hx
  cases hbk : l.back_id with
  | some back_id =>
    rw [hbk] at hx
    dsimp only at hx
    cases hins : l.slab.insert { value := v, prev_id := some back_id, next_id := none } with
    | mk node_id slab1 =>
      rw [hins] at hx
      have hslab1 : slab1 = (l.slab.insert { value := v, prev_id := some back_id, next_id := none }).2 :=
        (congrArg Prod.snd hins).symm
      dsimp only at hx
      cases hg : slab1.get back_id with
      | some back_node =>
        rw [hg] at hx
        dsimp only at hx
        rcases Slab.mem_values_set hx with rfl | hx2
        · rcases Slab.mem_values_insert (hslab1 ▸ Slab.mem_values_of_get hg) with rfl | hbn
          · exact Or.inl rfl
          · exact Or.inr ⟨back_node, hbn, rfl⟩
        · rcases Slab.mem_values_insert (hslab1 ▸ hx2) with rfl | hx3
          · exact Or.inl rfl
          · exact Or.inr ⟨x, hx3, rfl⟩
      | none =>
        rw [hg] at hx
        dsimp only at hx
        rcases Slab.mem_values_insert (hslab1 ▸ hx) with rfl | hx2
        · exact Or.inl rfl
        · exact Or.inr ⟨x, hx2, rfl⟩
  | none =>
    rw [hbk] at hx
    dsimp only at hx
    cases hins : l.slab.insert { value := v, prev_id := none, next_id := none } with
    | mk node_id slab1 =>
      rw [hins] at hx
      have hslab1 : slab1 = (l.slab.insert { value := v, prev_id := none, next_id := none }).2 :=
        (congrArg Prod.snd hins).symm
      dsimp only at hx
      rcases Slab.mem_values_insert (hslab1 ▸ hx) with rfl | hx2
      · exact Or.inl rfl
      · exact Or.inr ⟨x, hx2, rfl⟩

theorem SlabLinkedList.get_mut_update_values {T : Type} {l : SlabLinkedList T} {n : Nat}
    {f : T → T} :
    ∀ x ∈ (l.get_mut_update n f).slab.values,
      (∃ y ∈ l.slab.values, x.value = y.value) ∨ (∃ y ∈ l.slab.values, x.value = f y.value) := by
  intro x hx
  unfold SlabLinkedList.get_mut_update at hx
  cases hg : l.slab.get n with
  | none => rw [hg] at hx; exact Or.inl ⟨x, hx, rfl⟩
  | some node =>
    rw [hg] at hx
    dsimp only at hx
    rcases Slab.mem_values_set hx with rfl | hx2
    · exact Or.inr ⟨node, Slab.mem_values_of_get hg, rfl⟩
    · exact Or.inl ⟨x, hx2, rfl⟩

theorem PriceTree.mem_orderIds {t : PriceTree} {i : Uuid} :
    i ∈ t.orderIds ↔
      ∃ node ∈ t.slab.values, ∃ nd ∈ node.linked_list.slab.values, nd.value.id = i := by
  unfold PriceTree.orderIds PriceNode.orderIds
  rw [List.mem_flatten]
  constructor
  · rintro ⟨lst, hlst, hi⟩
    rw [List.mem_map] at hlst
    obtain ⟨node, hnode, rfl⟩ := hlst
    rw [List.mem_map] at hi
    obtain ⟨nd, hnd, rfl⟩ := hi
    exact ⟨node, hnode, nd, hnd, rfl⟩
  · rintro ⟨node, hnode, nd, hnd, rfl⟩
    exact ⟨_, List.mem_map.mpr ⟨node, hnode, rfl⟩, List.mem_map.mpr ⟨nd, hnd, rfl⟩⟩

theorem PriceTree.remove_order_orderIds {t : PriceTree} {key : OrderKey}
    {res : Except String Unit} {t' : PriceTree} (h : t.remove_order key = (res, t')) :
    ∀ i ∈ t'.orderIds, i ∈ t.orderIds := by
  intro i hi
  unfold PriceTree.remove_order at h
  cases hgn : t.slab.get key.price_node_id with
  | none => rw [hgn] at h; dsimp only at h; injection h with h1 h2; subst h2; exact hi
  | some price_node =>
    rw [hgn] at h
    dsimp only at h
    cases hrm : price_node.linked_list.remove key.linked_list_node_id with
    | mk val new_list =>
      rw [hrm] at h
      cases val with
      | none => dsimp only at h; injection h with h1 h2; subst h2; exact hi
      | some order =>
        dsimp only at h
        by_cases hemp : new_list.is_empty = true
        · rw [if_pos hemp] at h
          injection h with h1 h2
          subst h2
          rw [PriceTree.mem_orderIds] at hi ⊢
          obtain ⟨node, hnode, nd, hnd, rfl⟩ := hi
          exact ⟨node, Slab.mem_values_try_remove hnode, nd, hnd, rfl⟩
        · rw [if_neg hemp] at h
          injection h with h1 h2
          subst h2
          rw [PriceTree.mem_orderIds] at hi ⊢
          obtain ⟨node, hnode, nd, hnd, rfl⟩ := hi
          rcases Slab.mem_values_set hnode with rfl | hnode2
          · obtain ⟨y, hy, hyv⟩ := SlabLinkedList.remove_values hrm nd hnd
            refine ⟨price_node, Slab.mem_values_of_get hgn, y, hy, ?_⟩
            rw [hyv]
          · exact ⟨node, hnode2, nd, hnd, rfl⟩

theorem PriceTree.update_order_quantity_orderIds {t : PriceTree} {key : OrderKey} {q : Nat}
    {res : Except String Unit} {t' : PriceTree} (h : t.update_order_quantity key q = (res, t')) :
    ∀ i ∈ t'.orderIds, i ∈ t.orderIds := by
  intro i hi
  unfold PriceTree.update_order_quantity at h
  cases hgn : t.slab.get key.price_node_id with
  | none => rw [hgn] at h; dsimp only at h; injection h with h1 h2; subst h2; exact hi
  | some price_node =>
    rw [hgn] at h
    dsimp only at h
    cases hll : price_node.linked_list.get key.linked_list_node_id with
    | none => rw [hll] at h; dsimp only at h; injection h with h1 h2; subst h2; exact hi
    | some o =>
      rw [hll] at h
      dsimp only at h
      injection h with h1 h2
      subst h2
      rw [PriceTree.mem_orderIds] at hi ⊢
      obtain ⟨node, hnode, nd, hnd, rfl⟩ := hi
      rcases Slab.mem_values_set hnode with rfl | hnode2
      · rcases SlabLinkedList.get_mut_update_values nd hnd with ⟨y, hy, hyv⟩ | ⟨y, hy, hyv⟩
        · refine ⟨price_node, Slab.mem_values_of_get hgn, y, hy, ?_⟩
          rw [hyv]
        · refine ⟨price_node, Slab.mem_values_of_get hgn, y, hy, ?_⟩
          rw [hyv]
          rfl
      · exact ⟨node, hnode2, nd, hnd, rfl⟩

theorem PriceTree.insert_order_orderIds {t : PriceTree} {o : Order} :
    ∀ i ∈ (t.insert_order o).2.orderIds, i = o.id ∨ i ∈ t.orderIds := by
  intro i hi
  unfold PriceTree.insert_order at hi
  dsimp only at hi
  cases hgp : t.tree.get o.price with
  | some price_node_id =>
    rw [hgp] at hi
    dsimp only at hi
    cases hgn : t.slab.get price_node_id with
    | none => rw [hgn] at hi; dsimp only at hi; exact Or.inr hi
    | some price_node =>
      rw [hgn] at hi
      dsimp only at hi
      cases hpb : price_node.linked_list.push_back o with
      | mk llid newlist =>
        rw [hpb] at hi
        dsimp only at hi
        rw [PriceTree.mem_orderIds] at hi
        obtain ⟨node, hnode, nd, hnd, rfl⟩ := hi
        rcases Slab.mem_values_set hnode with rfl | hnode2
        · have hnd2 : nd ∈ (price_node.linked_list.push_back o).2.slab.values := by
            rw [hpb]; exact hnd
          rcases SlabLinkedList.push_back_values nd hnd2 with hv | ⟨y, hy, hyv⟩
          · exact Or.inl (by rw [hv])
          · refine Or.inr (PriceTree.mem_orderIds.mpr
              ⟨price_node, Slab.mem_values_of_get hgn, y, hy, ?_⟩)
            rw [hyv]
        · exact Or.inr (PriceTree.mem_orderIds.mpr ⟨node, hnode2, nd, hnd, rfl⟩)
  | none =>
    rw [hgp] at hi
    dsimp only at hi
    cases hpb : (SlabLinkedList.new : SlabLinkedList Order).push_back o with
    | mk llid newlist =>
      rw [hpb] at hi
      dsimp only at hi
      rw [PriceTree.mem_orderIds] at hi
      obtain ⟨node, hnode, nd, hnd, rfl⟩ := hi
      rcases Slab.mem_values_insert hnode with rfl | hnode2
      · have hnd2 : nd ∈ ((SlabLinkedList.new : SlabLinkedList Order).push_back o).2.slab.values := by
          rw [hpb]; exact hnd
        rcases SlabLinkedList.push_back_values nd hnd2 with hv | ⟨y, hy, hyv⟩
        · exact Or.inl (by rw [hv])
        · cases hy
      · exact Or.inr (PriceTree.mem_orderIds.mpr ⟨node, hnode2, nd, hnd, rfl⟩)

theorem matchOrdersInLevel_ids {pnid : Nat} :
    ∀ {orders : List (Nat × Order)} {r : Nat} {f : List (Uuid × OrderKey)} {pm : Option PartMatch}
      {r' : Nat} {f' : List (Uuid × OrderKey)} {pm' : Option PartMatch} {done : Bool},
      OrderBook.matchOrdersInLevel pnid orders r f pm = (r', f', pm', done) →
      ∀ q ∈ f', q ∈ f ∨ ∃ p ∈ orders, q.1 = (p.2 : Order).id := by
  intro orders
  induction orders with
  | nil =>
    intro r f pm r' f' pm' done h
    simp only [OrderBook.matchOrdersInLevel] at h
    cases h
    exact fun q hq => Or.inl hq
  | cons p rest ih =>
    intro r f pm r' f' pm' done h
    obtain ⟨llid, ord⟩ := p
    simp only [OrderBook.matchOrdersInLevel] at h
    by_cases hle : ord.quantity ≤ r
    · rw [if_pos hle] at h
      by_cases hz : r - ord.quantity = 0
      · rw [if_pos hz] at h
        cases h
        intro q hq
        rcases List.mem_append.mp hq with hq | hq
        · exact Or.inl hq
        · rcases List.mem_singleton.mp hq with rfl
          exact Or.inr ⟨(llid, ord), List.mem_cons_self _ _, rfl⟩
      · rw [if_neg hz] at h
        intro q hq
        rcases ih h q hq with hq2 | ⟨p2, hp2, he⟩
        · rcases List.mem_append.mp hq2 with hq3 | hq3
          · exact Or.inl hq3
          · rcases List.mem_singleton.mp hq3 with rfl
            exact Or.inr ⟨(llid, ord), List.mem_cons_self _ _, rfl⟩
        · exact Or.inr ⟨p2, List.mem_cons_of_mem _ hp2, he⟩
    · rw [if_neg hle] at h
      cases h
      exact fun q hq => Or.inl hq

theorem walkLevels_ids {acc : Nat → Bool} :
    ∀ {levels : List (Nat × PriceNode)} {r : Nat} {f : List (Uuid × OrderKey)}
      {pm : Option PartMatch} {mo : MatchOutcome},
      OrderBook.walkLevels acc levels r f pm = mo →
      ∀ q ∈ mo.full_order,
        q ∈ f ∨ ∃ pr ∈ levels, ∃ p ∈ (pr.2 : PriceNode).iterList, q.1 = (p.2 : Order).id := by
  intro levels
  induction levels with
  | nil =>
    intro r f pm mo h
    simp only [OrderBook.walkLevels] at h
    cases h
    exact fun q hq => Or.inl hq
  | cons pr rest ih =>
    intro r f pm mo h
    obtain ⟨pnid, node⟩ := pr
    simp only [OrderBook.walkLevels] at h
    by_cases hacc : acc node.price = true
    · rw [if_pos hacc] at h
      cases htup : OrderBook.matchOrdersInLevel pnid node.iterList r f pm with
      | mk r1 tup1 =>
        cases tup1 with
        | mk f1 tup2 =>
          cases tup2 with
          | mk pm1 done =>
            rw [htup] at h
            dsimp only at h
            cases done with
            | true =>
              rw [if_pos rfl] at h
              cases h
              intro q hq
              rcases matchOrdersInLevel_ids htup q hq with hq2 | ⟨p, hp, he⟩
              · exact Or.inl hq2
              · exact Or.inr ⟨(pnid, node), List.mem_cons_self _ _, p, hp, he⟩
            | false =>
              rw [if_neg (by simp)] at h
              intro q hq
              rcases ih h q hq with hq2 | ⟨pr2, hpr2, hrest⟩
              · rcases matchOrdersInLevel_ids htup q hq2 with hq3 | ⟨p, hp, he⟩
                · exact Or.inl hq3
                · exact Or.inr ⟨(pnid, node), List.mem_cons_self _ _, p, hp, he⟩
              · exact Or.inr ⟨pr2, List.mem_cons_of_mem _ hpr2, hrest⟩
    · rw [if_neg hacc] at h
      cases h
      exact fun q hq => Or.inl hq

theorem find_matching_full_ids (b : OrderBook) (ord : Order) (t : OrderType) :
    ∀ q ∈ (b.find_matching_orders ord t).full_order, q.1 ∈ (b.oppositeTree t).orderIds := by
  intro q hq
  cases t with
  | Bid =>
    show q.1 ∈ b.ask_tree.orderIds
    have h0 : OrderBook.walkLevels (fun p => p ≤ ord.price) b.ask_tree.iterListBack
        ord.quantity [] none = b.find_matching_orders ord OrderType.Bid := rfl
    rcases walkLevels_ids h0 q hq with hq2 | ⟨pr, hpr, p, hp, he⟩
    · cases hq2
    · obtain ⟨nid, node⟩ := pr
      have hnode := PriceTree.iterListAux_mem hpr
      obtain ⟨llid, o2⟩ := p
      unfold PriceNode.iterList SlabLinkedList.iterList at hp
      obtain ⟨nd, hnd, hv⟩ := SlabLinkedList.iterFrom_mem hp
      rw [PriceTree.mem_orderIds]
      refine ⟨node, Slab.mem_values_of_get hnode, nd, Slab.mem_values_of_get hnd, ?_⟩
      rw [hv]
      exact he.symm
  | Ask =>
    show q.1 ∈ b.bid_tree.orderIds
    have h0 : OrderBook.walkLevels (fun p => ord.price ≤ p) b.bid_tree.iterList
        ord.quantity [] none = b.find_matching_orders ord OrderType.Ask := rfl
    rcases walkLevels_ids h0 q hq with hq2 | ⟨pr, hpr, p, hp, he⟩
    · cases hq2
    · obtain ⟨nid, node⟩ := pr
      have hnode := PriceTree.iterListAux_mem hpr
      obtain ⟨llid, o2⟩ := p
      unfold PriceNode.iterList SlabLinkedList.iterList at hp
      obtain ⟨nd, hnd, hv⟩ := SlabLinkedList.iterFrom_mem hp
      rw [PriceTree.mem_orderIds]
      refine ⟨node, Slab.mem_values_of_get hnode, nd, Slab.mem_values_of_get hnd, ?_⟩
      rw [hv]
      exact he.symm

theorem place_order_some_fields {b : OrderBook} {price quantity : Nat} {ot : OrderType}
    {r : Except String Uuid} {b' : OrderBook} (hp : b.place_order price quantity ot = some (r, b')) :
    b' = b ∨
    ∃ t1 m1 s1,
      OrderBook.removeFullMatches
        (b.find_matching_orders (Order.new b.next_id price quantity) ot).full_order
        (b.oppositeTree ot) b.order_id_map b.order_removed_set = some (t1, m1, s1) ∧
      b'.next_id = b.next_id + 1 ∧
      (∀ i ∈ (b'.oppositeTree ot).orderIds, i ∈ t1.orderIds) ∧
      ((b'.order_removed_set = s1 ∧
        (∃ v, b'.order_id_map = mapInsert m1 b.next_id v) ∧
        (∀ i ∈ (b'.ownTree ot).orderIds, i = b.next_id ∨ i ∈ (b.ownTree ot).orderIds)) ∨
       (b'.order_removed_set = setInsert s1 b.next_id ∧ b'.order_id_map = m1 ∧
        b'.ownTree ot = b.ownTree ot)) := by
  cases ot with
  | Ask =>
    unfold OrderBook.place_order at hp
    by_cases hz : quantity = 0 ∨ price = 0
    · rw [if_pos hz] at hp
      injection hp with hp
      injection hp with h1 h2
      exact Or.inl h2.symm
    · rw [if_neg hz] at hp
      dsimp only at hp
      split at hp
      · cases hp
      · rename_i u hprint
        split at hp
        · cases hp
        · rename_i x t1 m1 s1 hrfm
          split at hp
          · cases hp
          · rename_i t2 hupd
            injection hp with hp
            injection hp with h1 h2
            right
            refine ⟨t1, m1, s1, hrfm, ?_, ?_, ?_⟩
            · rw [← h2]
              dsimp only
              split <;> rfl
            · have hopp : b'.oppositeTree OrderType.Ask = t2 := by
                unfold OrderBook.oppositeTree
                rw [← h2]
                dsimp only
                split <;> rfl
              have ht2 : ∀ i ∈ t2.orderIds, i ∈ t1.orderIds := by
                split at hupd
                · rename_i pm hpm
                  split at hupd
                  · rename_i a t2x hu
                    injection hupd with hupd
                    subst hupd
                    exact PriceTree.update_order_quantity_orderIds hu
                  · cases hupd
                · injection hupd with hupd
                  subst hupd
                  exact fun i hi => hi
              intro i hi
              rw [hopp] at hi
              exact ht2 i hi
            · by_cases hrest : 0 < ((Order.new b.next_id price quantity).update_quantity
                  (b.find_matching_orders (Order.new b.next_id price quantity)
                    OrderType.Ask).remaining_quantity).quantity
              · left
                refine ⟨?_, ?_, ?_⟩
                · rw [← h2]
                  dsimp only
                  rw [if_pos hrest]
                · refine ⟨(OrderType.Ask, (b.ask_tree.insert_order
                    ((Order.new b.next_id price quantity).update_quantity
                      (b.find_matching_orders (Order.new b.next_id price quantity)
                        OrderType.Ask).remaining_quantity)).1), ?_⟩
                  rw [← h2]
                  dsimp only
                  rw [if_pos hrest]
                  dsimp only [Order.new, Order.update_quantity]
                · intro i hi
                  have hown : b'.ownTree OrderType.Ask = (b.ask_tree.insert_order
                      ((Order.new b.next_id price quantity).update_quantity
                        (b.find_matching_orders (Order.new b.next_id price quantity)
                          OrderType.Ask).remaining_quantity)).2 := by
                    unfold OrderBook.ownTree
                    rw [← h2]
                    dsimp only
                    rw [if_pos hrest]
                  rw [hown] at hi
                  exact PriceTree.insert_order_orderIds i hi
              · right
                refine ⟨?_, ?_, ?_⟩
                · rw [← h2]
                  dsimp only
                  rw [if_neg hrest]
                  dsimp only [Order.new, Order.update_quantity]
                · rw [← h2]
                  dsimp only
                  rw [if_neg hrest]
                · unfold OrderBook.ownTree
                  rw [← h2]
                  dsimp only
                  rw [if_neg hrest]
  | Bid =>
    unfold OrderBook.place_order at hp
    by_cases hz : quantity = 0 ∨ price = 0
    · rw [if_pos hz] at hp
      injection hp with hp
      injection hp with h1 h2
      exact Or.inl h2.symm
    · rw [if_neg hz] at hp
      dsimp only at hp
      split at hp
      · cases hp
      · rename_i u hprint
        split at hp
        · cases hp
        · rename_i x t1 m1 s1 hrfm
          split at hp
          · cases hp
          · rename_i t2 hupd
            injection hp with hp
            injection hp with h1 h2
            right
            refine ⟨t1, m1, s1, hrfm, ?_, ?_, ?_⟩
            · rw [← h2]
              dsimp only
              split <;> rfl
            · have hopp : b'.oppositeTree OrderType.Bid = t2 := by
                unfold OrderBook.oppositeTree
                rw [← h2]
                dsimp only
                split <;> rfl
              have ht2 : ∀ i ∈ t2.orderIds, i ∈ t1.orderIds := by
                split at hupd
                · rename_i pm hpm
                  split at hupd
                  · rename_i a t2x hu
                    injection hupd with hupd
                    subst hupd
                    exact PriceTree.update_order_quantity_orderIds hu
                  · cases hupd
                · injection hupd with hupd
                  subst hupd
                  exact fun i hi => hi
              intro i hi
              rw [hopp] at hi
              exact ht2 i hi
            · by_cases hrest : 0 < ((Order.new b.next_id price quantity).update_quantity
                  (b.find_matching_orders (Order.new b.next_id price quantity)
                    OrderType.Bid).remaining_quantity).quantity
              · left
                refine ⟨?_, ?_, ?_⟩
                · rw [← h2]
                  dsimp only
                  rw [if_pos hrest]
                · refine ⟨(OrderType.Bid, (b.bid_tree.insert_order
                    ((Order.new b.next_id price quantity).update_quantity
                      (b.find_matching_orders (Order.new b.next_id price quantity)
                        OrderType.Bid).remaining_quantity)).1), ?_⟩
                  rw [← h2]
                  dsimp only
                  rw [if_pos hrest]
                  dsimp only [Order.new, Order.update_quantity]
                · intro i hi
                  have hown : b'.ownTree OrderType.Bid = (b.bid_tree.insert_order
                      ((Order.new b.next_id price quantity).update_quantity
                        (b.find_matching_orders (Order.new b.next_id price quantity)
                          OrderType.Bid).remaining_quantity)).2 := by
                    unfold OrderBook.ownTree
                    rw [← h2]
                    dsimp only
                    rw [if_pos hrest]
                  rw [hown] at hi
                  exact PriceTree.insert_order_orderIds i hi
              · right
                refine ⟨?_, ?_, ?_⟩
                · rw [← h2]
                  dsimp only
                  rw [if_neg hrest]
                  dsimp only [Order.new, Order.update_quantity]
                · rw [← h2]
                  dsimp only
                  rw [if_neg hrest]
                · unfold OrderBook.ownTree
                  rw [← h2]
                  dsimp only
                  rw [if_neg hrest]

theorem cancel_order_some_fields {b : OrderBook} {oid : Uuid} {r : Except String Unit}
    {b' : OrderBook} (hc : b.cancel_order oid = some (r, b')) :
    b' = b ∨
    (b'.order_id_map = mapRemove b.order_id_map oid ∧
     b'.order_removed_set = setInsert b.order_removed_set oid ∧
     oid ∈ b.order_id_map.map Prod.fst ∧
     (∀ i ∈ b'.bid_tree.orderIds, i ∈ b.bid_tree.orderIds) ∧
     (∀ i ∈ b'.ask_tree.orderIds, i ∈ b.ask_tree.orderIds) ∧
     b'.next_id = b.next_id) := by
  unfold OrderBook.cancel_order at hc
  by_cases hts : setContains b.order_removed_set oid = true
  · rw [if_pos hts] at hc
    injection hc with hc
    injection hc with h1 h2
    exact Or.inl h2.symm
  · rw [if_neg hts] at hc
    cases hg : mapGet b.order_id_map oid with
    | none =>
      rw [hg] at hc
      dsimp only at hc
      injection hc with hc
      injection hc with h1 h2
      exact Or.inl h2.symm
    | some pk =>
      obtain ⟨ot, key⟩ := pk
      rw [hg] at hc
      dsimp only at hc
      cases ot with
      | Ask =>
        cases hrm : b.ask_tree.remove_order key with
        | mk rr t1 =>
          rw [hrm] at hc
          cases rr with
          | error e => dsimp only at hc; cases hc
          | ok u =>
            cases u
            dsimp only at hc
            injection hc with hc
            injection hc with h1 h2
            right
            refine ⟨?_, ?_, mapGet_some_mem_keys hg, ?_, ?_, ?_⟩
            · rw [← h2]
            · rw [← h2]
            · intro i hi
              rw [← h2] at hi
              exact hi
            · intro i hi
              rw [← h2] at hi
              exact PriceTree.remove_order_orderIds hrm i hi
            · rw [← h2]
      | Bid =>
        cases hrm : b.bid_tree.remove_order key with
        | mk rr t1 =>
          rw [hrm] at hc
          cases rr with
          | error e => dsimp only at hc; cases hc
          | ok u =>
            cases u
            dsimp only at hc
            injection hc with hc
            injection hc with h1 h2
            right
            refine ⟨?_, ?_, mapGet_some_mem_keys hg, ?_, ?_, ?_⟩
            · rw [← h2]
            · rw [← h2]
            · intro i hi
              rw [← h2] at hi
              exact PriceTree.remove_order_orderIds hrm i hi
            · intro i hi
              rw [← h2] at hi
              exact hi
            · rw [← h2]

theorem removeFullMatches_spec :
    ∀ {l : List (Uuid × OrderKey)} {t : PriceTree} {m : List (Uuid × (OrderType × OrderKey))}
      {s : List Uuid} {t' : PriceTree} {m' : List (Uuid × (OrderType × OrderKey))} {s' : List Uuid},
      OrderBook.removeFullMatches l t m s = some (t', m', s') →
      (∀ i ∈ t'.orderIds, i ∈ t.orderIds) ∧
      (∀ k ∈ m'.map Prod.fst, k ∈ m.map Prod.fst) ∧
      (∀ k ∈ s', k ∈ s ∨ k ∈ l.map Prod.fst) ∧
      (∀ k ∈ s, k ∈ s') ∧
      ((∀ k ∈ m.map Prod.fst, k ∉ s) → ∀ k ∈ m'.map Prod.fst, k ∉ s') := by
  intro l
  induction l with
  | nil =>
    intro t m s t' m' s' h
    simp only [OrderBook.removeFullMatches] at h
    injection h with h
    injection h with e1 h
    injection h with e2 e3
    subst e1
    subst e2
    subst e3
    exact ⟨fun i hi => hi, fun k hk => hk, fun k hk => Or.inl hk, fun k hk => hk,
      fun hA k hk => hA k hk⟩
  | cons p rest ih =>
    intro t m s t' m' s' h
    obtain ⟨fid, key⟩ := p
    simp only [OrderBook.removeFullMatches] at h
    cases hrm : t.remove_order key with
    | mk rr t1 =>
      rw [hrm] at h
      cases rr with
      | error e => dsimp only at h; cases h
      | ok u =>
        cases u
        dsimp only at h
        have hrec := ih h
        refine ⟨?_, ?_, ?_, ?_, ?_⟩
        · intro i hi
          exact PriceTree.remove_order_orderIds hrm i (hrec.1 i hi)
        · intro k hk
          exact (mem_keys_mapRemove (hrec.2.1 k hk)).1
        · intro k hk
          rcases hrec.2.2.1 k hk with hk2 | hk2
          · rcases mem_setInsert_iff.mp hk2 with rfl | hk3
            · exact Or.inr (by simp only [List.map_cons]; exact List.mem_cons_self _ _)
            · exact Or.inl hk3
          · exact Or.inr (by simp only [List.map_cons]; exact List.mem_cons_of_mem _ hk2)
        · intro k hk
          exact hrec.2.2.2.1 k (mem_setInsert_iff.mpr (Or.inr hk))
        · intro hA k hk
          refine hrec.2.2.2.2 ?_ k hk
          intro k2 hk2 hk2s
          have hkk := mem_keys_mapRemove hk2
          rcases mem_setInsert_iff.mp hk2s with rfl | hk3
          · exact hkk.2 rfl
          · exact hA k2 hkk.1 hk3

theorem applyOp_cancel_none {b : OrderBook} {oid : Uuid} (h : b.cancel_order oid = none) :
    applyOp b (BookOp.cancel oid) = b := by
  unfold applyOp
  dsimp only
  rw [h]

theorem applyOp_cancel_some {b : OrderBook} {oid : Uuid} {r : Except String Unit}
    {b1 : OrderBook} (h : b.cancel_order oid = some (r, b1)) :
    applyOp b (BookOp.cancel oid) = b1 := by
  unfold applyOp
  dsimp only
  rw [h]

theorem applyOp_place_none {b : OrderBook} {price quantity : Nat} {ot : OrderType}
    (h : b.place_order price quantity ot = none) :
    applyOp b (BookOp.place price quantity ot) = b := by
  unfold applyOp
  dsimp only
  rw [h]

theorem applyOp_place_some {b : OrderBook} {price quantity : Nat} {ot : OrderType}
    {r : Except String Uuid} {b1 : OrderBook} (h : b.place_order price quantity ot = some (r, b1)) :
    applyOp b (BookOp.place price quantity ot) = b1 := by
  unfold applyOp
  dsimp only
  rw [h]

theorem applyOp_removed_mono (b : OrderBook) (op : BookOp) :
    ∀ x ∈ b.order_removed_set, x ∈ (applyOp b op).order_removed_set := by
  intro x hx
  cases op with
  | cancel oid =>
    cases hc : b.cancel_order oid with
    | none => rw [applyOp_cancel_none hc]; exact hx
    | some rb =>
      obtain ⟨r, b1⟩ := rb
      rw [applyOp_cancel_some hc]
      rcases cancel_order_some_fields hc with heq | hf
      · rw [heq]; exact hx
      · rw [hf.2.1]
        exact mem_setInsert_iff.mpr (Or.inr hx)
  | place price quantity ot =>
    cases hp : b.place_order price quantity ot with
    | none => rw [applyOp_place_none hp]; exact hx
    | some rb =>
      obtain ⟨r, b1⟩ := rb
      rw [applyOp_place_some hp]
      rcases place_order_some_fields hp with heq | ⟨t1, m1, s1, hrfm, hnext, hopp, hcases⟩
      · rw [heq]; exact hx
      · have hs1 : x ∈ s1 := (removeFullMatches_spec hrfm).2.2.2.1 x hx
        rcases hcases with ⟨hrem, hmap, hown⟩ | ⟨hrem, hmap, hown⟩
        · rw [hrem]
          exact hs1
        · rw [hrem]
          exact mem_setInsert_iff.mpr (Or.inr hs1)

theorem applyOps_removed_mono (ops : List BookOp) (b : OrderBook) :
    ∀ x ∈ b.order_removed_set, x ∈ (applyOps ops b).order_removed_set := by
  induction ops generalizing b with
  | nil => exact fun x hx => hx
  | cons op rest ih =>
    intro x hx
    exact ih (applyOp b op) x (applyOp_removed_mono b op x hx)

theorem BookInv_new : BookInv OrderBook.new := by
  refine ⟨?_, ?_, ?_, ?_, ?_⟩ <;> intro k hk <;>
    simp [OrderBook.new, PriceTree.new, PriceTree.orderIds, Slab.values, Slab.new] at hk

theorem BookInv_applyOp {b : OrderBook} (hinv : BookInv b) (op : BookOp) :
    BookInv (applyOp b op) := by
  obtain ⟨hA, hB, hC, hD, hE⟩ := hinv
  cases op with
  | cancel oid =>
    cases hc : b.cancel_order oid with
    | none => rw [applyOp_cancel_none hc]; exact ⟨hA, hB, hC, hD, hE⟩
    | some rb =>
      obtain ⟨r, b1⟩ := rb
      rw [applyOp_cancel_some hc]
      rcases cancel_order_some_fields hc with heq | ⟨hm, hs, hoid, hbid, hask, hnext⟩
      · rw [heq]; exact ⟨hA, hB, hC, hD, hE⟩
      · refine ⟨?_, ?_, ?_, ?_, ?_⟩
        · intro k hk
          rw [hm] at hk
          obtain ⟨hk1, hk2⟩ := mem_keys_mapRemove hk
          rw [hs]
          intro hmem
          rcases mem_setInsert_iff.mp hmem with rfl | hk3
          · exact hk2 rfl
          · exact hA k hk1 hk3
        · intro k hk
          rw [hm] at hk
          rw [hnext]
          exact hB k (mem_keys_mapRemove hk).1
        · intro k hk
          rw [hs] at hk
          rw [hnext]
          rcases mem_setInsert_iff.mp hk with rfl | hk2
          · exact hB k hoid
          · exact hC k hk2
        · intro k hk
          rw [hnext]
          exact hD k (hbid k hk)
        · intro k hk
          rw [hnext]
          exact hE k (hask k hk)
  | place price quantity ot =>
    cases hp : b.place_order price quantity ot with
    | none => rw [applyOp_place_none hp]; exact ⟨hA, hB, hC, hD, hE⟩
    | some rb =>
      obtain ⟨r, b1⟩ := rb
      rw [applyOp_place_some hp]
      rcases place_order_some_fields hp with heq | ⟨t1, m1, s1, hrfm, hnext, hopp, hcases⟩
      · rw [heq]; exact ⟨hA, hB, hC, hD, hE⟩
      · have hspec := removeFullMatches_spec hrfm
        have hfull : ∀ k ∈ ((b.find_matching_orders (Order.new b.next_id price quantity)
            ot).full_order).map Prod.fst, k < b.next_id := by
          intro k hk
          rw [List.mem_map] at hk
          obtain ⟨q, hq, rfl⟩ := hk
          have hqid := find_matching_full_ids b (Order.new b.next_id price quantity) ot q hq
          cases ot with
          | Ask => exact hD q.1 hqid
          | Bid => exact hE q.1 hqid
        have hs1sub : ∀ k ∈ s1, k < b.next_id := by
          intro k hk
          rcases hspec.2.2.1 k hk with hk2 | hk2
          · exact hC k hk2
          · exact hfull k hk2
        have hm1sub : ∀ k ∈ m1.map Prod.fst, k < b.next_id :=
          fun k hk => hB k (hspec.2.1 k hk)
        have hm1dis : ∀ k ∈ m1.map Prod.fst, k ∉ s1 := hspec.2.2.2.2 hA
        have hoppb : ∀ i ∈ (b1.oppositeTree ot).orderIds, i < b.next_id := by
          intro i hi
          have h2 := hspec.1 i (hopp i hi)
          cases ot with
          | Ask => exact hD i h2
          | Bid => exact hE i h2
        rcases hcases with ⟨hrem, ⟨v, hmap⟩, hown⟩ | ⟨hrem, hmap, hown⟩
        · have hownb : ∀ i ∈ (b1.ownTree ot).orderIds, i < b.next_id + 1 := by
            intro i hi
            rcases hown i hi with rfl | hi2
            · exact Nat.lt_succ_self _
            · cases ot with
              | Ask => exact Nat.lt_succ_of_lt (hE i hi2)
              | Bid => exact Nat.lt_succ_of_lt (hD i hi2)
          refine ⟨?_, ?_, ?_, ?_, ?_⟩
          · intro k hk
            rw [hmap] at hk
            rw [hrem]
            rcases mem_keys_mapInsert hk with rfl | hk2
            · intro hmem
              exact absurd (hs1sub _ hmem) (lt_irrefl _)
            · exact hm1dis k hk2
          · intro k hk
            rw [hmap] at hk
            rw [hnext]
            rcases mem_keys_mapInsert hk with rfl | hk2
            · exact Nat.lt_succ_self _
            · exact Nat.lt_succ_of_lt (hm1sub k hk2)
          · intro k hk
            rw [hrem] at hk
            rw [hnext]
            exact Nat.lt_succ_of_lt (hs1sub k hk)
          · intro k hk
            rw [hnext]
            cases ot with
            | Ask => exact Nat.lt_succ_of_lt (hoppb k hk)
            | Bid => exact hownb k hk
          · intro k hk
            rw [hnext]
            cases ot with
            | Ask => exact hownb k hk
            | Bid => exact Nat.lt_succ_of_lt (hoppb k hk)
        · refine ⟨?_, ?_, ?_, ?_, ?_⟩
          · intro k hk
            rw [hmap] at hk
            rw [hrem]
            intro hmem
            rcases mem_setInsert_iff.mp hmem with rfl | hk2
            · exact absurd (hm1sub _ hk) (lt_irrefl _)
            · exact hm1dis k hk hk2
          · intro k hk
            rw [hmap] at hk
            rw [hnext]
            exact Nat.lt_succ_of_lt (hm1sub k hk)
          · intro k hk
            rw [hrem] at hk
            rw [hnext]
            rcases mem_setInsert_iff.mp hk with rfl | hk2
            · exact Nat.lt_succ_self _
            · exact Nat.lt_succ_of_lt (hs1sub k hk2)
          · intro k hk
            rw [hnext]
            cases ot with
            | Ask => exact Nat.lt_succ_of_lt (hoppb k hk)
            | Bid =>
              have hk2 : k ∈ (b1.ownTree OrderType.Bid).orderIds := hk
              rw [hown] at hk2
              exact Nat.lt_succ_of_lt (hD k hk2)
          · intro k hk
            rw [hnext]
            cases ot with
            | Ask =>
              have hk2 : k ∈ (b1.ownTree OrderType.Ask).orderIds := hk
              rw [hown] at hk2
              exact Nat.lt_succ_of_lt (hE k hk2)
            | Bid => exact Nat.lt_succ_of_lt (hoppb k hk)

theorem BookInv_applyOps (ops : List BookOp) {b : OrderBook} (h : BookInv b) :
    BookInv (applyOps ops b) := by
  induction ops generalizing b with
  | nil => exact h
  | cons op rest ih => exact ih (BookInv_applyOp h op)

/-- C10: after every sequence of place and cancel operations starting from the empty book, the id index keys and the tombstone set are disjoint, and the tombstone set only grows: an id tombstoned after some prefix is still tombstoned after any continuation of the sequence. -/
theorem c10_tombstone_disjoint_and_monotone (ops : List BookOp) :
    (∀ k ∈ (applyOps ops OrderBook.new).order_id_map.map Prod.fst,
        k ∉ (applyOps ops OrderBook.new).order_removed_set) ∧
    (∀ (more : List BookOp) (x : Uuid),
        x ∈ (applyOps ops OrderBook.new).order_removed_set →
        x ∈ (applyOps (ops ++ more) OrderBook.new).order_removed_set) := by
  constructor
  · exact (BookInv_applyOps ops BookInv_new).1
  · intro more x hx
    have hsplit : applyOps (ops ++ more) OrderBook.new =
        applyOps more (applyOps ops OrderBook.new) := by
      unfold applyOps
      exact List.foldl_append _ _ _ _
    rw [hsplit]
    exact applyOps_removed_mono more _ x hx

/-- C10 witness: after a full cross both ids are tombstoned and absent from the index; the tombstone survives a later cancel of an unknown id. -/
theorem c10_tombstone_witness :
    0 ∈ (applyOps [BookOp.place 100 10 OrderType.Ask, BookOp.place 100 10 OrderType.Bid]
      OrderBook.new).order_removed_set ∧
    0 ∈ (applyOps ([BookOp.place 100 10 OrderType.Ask, BookOp.place 100 10 OrderType.Bid] ++
      [BookOp.cancel 5]) OrderBook.new).order_removed_set := by
  refine ⟨by decide, ?_⟩
  exact (c10_tombstone_disjoint_and_monotone
    [BookOp.place 100 10 OrderType.Ask, BookOp.place 100 10 OrderType.Bid]).2
    [BookOp.cancel 5] 0 (by decide)
